import Mathlib

/-
Shallow embedding of the zodfn wrapping/execution engine (src/index.js) and
proofs about its builder, validation-message, and per-call pipeline behavior.

Promises are represented by their eventual settlement (an `Except` value):
the engine is single-threaded and awaits at explicit points only, so a
promise observed by the pipeline is characterized by whether it resolves or
rejects and with what value.  A JS function call's immediate outcome is a
plain value, a promise, or a synchronous throw.
-/

namespace ZodFn

/-- JavaScript-style runtime values used by the embedding; the constructor
named undefJS models the JS value undefined. -/
inductive JSVal where
  | undefJS : JSVal
  | num : Int → JSVal
  | str : String → JSVal
deriving DecidableEq, Inhabited

/-- One issue from a structured validator error: a message string plus an
optional path member (present exactly when the issue carries a path array,
whose segments are rendered as strings). -/
structure Issue where
  message : String
  path : Option (List String)
deriving DecidableEq

/-- Outcome of applying JSON.parse to a validator error's message: parsing
can fail, yield a non-array value, or yield an array of issues. -/
inductive JsonParse where
  | failed : JsonParse
  | notArray : JsonParse
  | array : List Issue → JsonParse
deriving DecidableEq

/-- A validator-level error: the raw message string together with the way
that message parses as JSON. -/
structure ZErr where
  raw : String
  parsed : JsonParse
deriving DecidableEq

/-- Embedding of getOrdinalSuffix (src/index.js lines 10-17). -/
def getOrdinalSuffix (num : Nat) : String :=
  let j := num % 10
  let k := num % 100
  if j = 1 ∧ k ≠ 11 then "st"
  else if j = 2 ∧ k ≠ 12 then "nd"
  else if j = 3 ∧ k ≠ 13 then "rd"
  else "th"

/-- Decimal digit character, code point 48 + d. -/
def digitChar (d : Nat) : Char := Char.ofNat (48 + d)

/-- Fuel-driven digit accumulator for decimal rendering: peel the least
significant digit while fuel lasts. -/
def natToCharsAux : Nat → Nat → List Char → List Char
  | 0, _, acc => acc
  | fuel + 1, n, acc =>
    if n < 10 then digitChar n :: acc
    else natToCharsAux fuel (n / 10) (digitChar (n % 10) :: acc)

/-- Decimal rendering of a natural number, embedding the JS template-string
interpolation of a nonnegative integer position. -/
def natToChars (n : Nat) : List Char := natToCharsAux (n + 1) n []

/-- String form of natToChars. -/
def natToStr (n : Nat) : String := ⟨natToChars n⟩

/-- Replacement of the first occurrence of pat in l by rep, embedding the
JS String replace method with a string pattern. -/
def replaceFirstL (l pat rep : List Char) : List Char :=
  match l with
  | [] => []
  | c :: rest =>
    if pat.isPrefixOf (c :: rest) then rep ++ (c :: rest).drop pat.length
    else c :: replaceFirstL rest pat rep

/-- Embedding of the guidance-text substitution applied to every produced
message: message.replace of the literal parseAsync call text by the
createAsync call text (src/index.js lines 27, 44, 79, 95). -/
def fixGuidance (s : String) : String :=
  ⟨replaceFirstL s.data "parseAsync()".data "createAsync()".data⟩

/-- Path segments joined by a dot, embedding the JS Array join method. -/
def joinPath (p : List String) : String := String.intercalate "." p

/-- Shared message construction of the two throwError helpers (src/index.js
lines 32-44 and 84-95): the position label, an optional path segment
(omitted when the joined path is empty), the first issue's message, and the
guidance substitution applied to the result. -/
def structuredMsg (label : String) (iss : Issue) : String :=
  let path := joinPath (iss.path.getD [])
  let m1 := if path ≠ "" then label ++ " - Path: " ++ path else label
  fixGuidance (m1 ++ " - " ++ iss.message)

/-- Message of the ZodFnError thrown by the throwError helper inside
argValidation (src/index.js lines 20-47): when the error's message parses
as an issue array whose first issue has a truthy message and a path member,
build the structured message with the ordinal position label; otherwise
forward the raw message, with the guidance substitution either way. -/
def argThrowMsg (position : Nat) (e : ZErr) : String :=
  match e.parsed with
  | .failed => fixGuidance e.raw
  | .notArray => fixGuidance e.raw
  | .array issues =>
    match issues with
    | [] => fixGuidance e.raw
    | iss :: _ =>
      if iss.message ≠ "" ∧ iss.path.isSome then
        structuredMsg ("Validation failed for " ++
          (natToStr position ++ getOrdinalSuffix position) ++ " argument") iss
      else fixGuidance e.raw

/-- Message of the ZodFnError thrown by the throwError helper inside
returnValidation (src/index.js lines 71-98), with the fixed return-value
label. -/
def retThrowMsg (e : ZErr) : String :=
  match e.parsed with
  | .failed => fixGuidance e.raw
  | .notArray => fixGuidance e.raw
  | .array issues =>
    match issues with
    | [] => fixGuidance e.raw
    | iss :: _ =>
      if iss.message ≠ "" ∧ iss.path.isSome then
        structuredMsg "Validation failed for return value" iss
      else fixGuidance e.raw

/-- A value examined as a schema.  Each field is some f exactly when the
corresponding member is callable, f giving the result of calling it (for
parseAsync: the settlement of the returned promise). -/
structure SchemaVal where
  parse : Option (JSVal → Except ZErr JSVal)
  parseAsync : Option (JSVal → Except ZErr JSVal)

/-- Calling schema.parse(arg); when the member is missing, JS raises a
TypeError, whose message is not JSON. -/
def callParse (s : SchemaVal) (v : JSVal) : Except ZErr JSVal :=
  match s.parse with
  | some f => f v
  | none => .error ⟨"schema.parse is not a function", .failed⟩

/-- Calling and awaiting schema.parseAsync(arg); when the member is missing,
JS raises a TypeError, whose message is not JSON. -/
def callParseAsync (s : SchemaVal) (v : JSVal) : Except ZErr JSVal :=
  match s.parseAsync with
  | some f => f v
  | none => .error ⟨"schema.parseAsync is not a function", .failed⟩

/-- An error value travelling through the pipeline: a ZodFnError identified
by its message, or an arbitrary user-thrown value. -/
inductive JErr where
  | zodfn : String → JErr
  | other : JSVal → JErr
deriving DecidableEq

/-- Embedding of argValidation (src/index.js lines 19-64): parse the value,
turning a validator failure into a thrown ZodFnError. -/
def argValidation (arg : JSVal) (position : Nat) (schema : SchemaVal)
    (isAsync : Bool) : Except JErr JSVal :=
  match (if isAsync then callParseAsync schema arg else callParse schema arg) with
  | .ok v => .ok v
  | .error e => .error (.zodfn (argThrowMsg position e))

/-- Embedding of returnValidation (src/index.js lines 66-115): an undefined
schema passes the value through unchanged. -/
def returnValidation (arg : JSVal) (schema : Option SchemaVal)
    (isAsync : Bool) : Except JErr JSVal :=
  match schema with
  | none => .ok arg
  | some s =>
    match (if isAsync then callParseAsync s arg else callParse s arg) with
    | .ok v => .ok v
    | .error e => .error (.zodfn (retThrowMsg e))

/-- Immediate outcome of calling a JS function: a plain value, a promise
(represented by its settlement), or a synchronous throw. -/
inductive CallOut where
  | value : JSVal → CallOut
  | promise : Except JErr JSVal → CallOut
  | thrown : JErr → CallOut

/-- The per-callable mutable Execution Options record built by getExecFn
(src/index.js lines 117-125). -/
structure Options where
  execFn : List JSVal → CallOut
  spyFn : List JSVal → JSVal → Nat → CallOut
  spyFnCount : Nat
  onErrorFn : JErr → List JSVal → CallOut

/-- The default no-op spy installed at materialization and by resetSpy. -/
def noopSpy : List JSVal → JSVal → Nat → CallOut := fun _ _ _ => .value .undefJS

/-- The default error handler: rethrow the error unchanged. -/
def defaultOnError : JErr → List JSVal → CallOut := fun err _ => .thrown err

/-- The fresh Execution Options record wrapping the original implementation
(src/index.js lines 118-125). -/
def initOptions (ogFn : List JSVal → CallOut) : Options :=
  { execFn := ogFn, spyFn := noopSpy, spyFnCount := 0, onErrorFn := defaultOnError }

/-- Observable events of one invocation, logged in execution order:
implCalled when the current implementation is invoked, implFailed when it
throws or its promise rejects, onErrCalled when the error handler is
invoked, retValidated with the value produced by return validation,
retValFailed when return validation throws, spyCalled with the spy's three
arguments, rejectionDiscarded when a leaked promise gets a catch handler
attached to silence its rejection. -/
inductive Ev where
  | implCalled : List JSVal → Ev
  | implFailed : JErr → Ev
  | onErrCalled : JErr → List JSVal → Ev
  | retValidated : JSVal → Ev
  | retValFailed : JErr → Ev
  | spyCalled : List JSVal → JSVal → Nat → Ev
  | rejectionDiscarded : Ev
deriving DecidableEq

/-- The argument-validation loop shared by both materializations
(src/index.js lines 275-283 and 355-363): i is the 0-based position into
the passed arguments, and the schema at i is applied only when present. -/
def validateArgs (schemas : List SchemaVal) (isAsync : Bool) :
    Nat → List JSVal → Except JErr (List JSVal)
  | _, [] => .ok []
  | i, a :: rest =>
    match schemas.get? i with
    | some s =>
      match argValidation a (i + 1) s isAsync with
      | .error e => .error e
      | .ok pa =>
        match validateArgs schemas isAsync (i + 1) rest with
        | .error e => .error e
        | .ok prest => .ok (pa :: prest)
    | none =>
      match validateArgs schemas isAsync (i + 1) rest with
      | .error e => .error e
      | .ok prest => .ok (a :: prest)

/-- Outcome of one invocation of a callable materialized with create: a
plain value, a returned promise (by its settlement), or a synchronous
throw. -/
inductive SyncOut where
  | value : JSVal → SyncOut
  | promise : Except JErr JSVal → SyncOut
  | thrown : JErr → SyncOut

/-- Result of one invocation of a create-materialized callable: outcome,
final Execution Options record, and the event trace. -/
structure SyncRes where
  out : SyncOut
  opts : Options
  trace : List Ev

/-- The fatal message raised when the error handler returns a promise in the
purely synchronous pipeline (src/index.js lines 319-321). -/
def onErrPromiseMsg : String :=
  "onError handler function cannot return a promise in a synchronous context"

/-- The fatal message raised when the spy returns a promise in the purely
synchronous pipeline (src/index.js lines 332-334). -/
def spyPromiseMsg : String :=
  "Spy handler function cannot return a promise in a synchronous context"

/-- Tail of the purely synchronous pipeline: return validation, spy counter
increment, spy invocation, synchronous promise-leak check (src/index.js
lines 325-337). -/
def syncFinish (retSchema : Option SchemaVal) (opts : Options)
    (parsedArgs : List JSVal) (ret : JSVal) (tr : List Ev) : SyncRes :=
  match returnValidation ret retSchema false with
  | .error e => ⟨.thrown e, opts, tr ++ [.retValFailed e]⟩
  | .ok ret2 =>
    let opts2 : Options := { opts with spyFnCount := opts.spyFnCount + 1 }
    let tr2 := tr ++ [.retValidated ret2, .spyCalled parsedArgs ret2 opts2.spyFnCount]
    match opts2.spyFn parsedArgs ret2 opts2.spyFnCount with
    | .thrown e => ⟨.thrown e, opts2, tr2⟩
    | .promise _ => ⟨.thrown (.zodfn spyPromiseMsg), opts2, tr2 ++ [.rejectionDiscarded]⟩
    | .value _ => ⟨.value ret2, opts2, tr2⟩

/-- Tail of the promise branch inside a create-materialized callable:
return validation (still in synchronous mode), spy counter increment, spy
invocation with an awaited result (src/index.js lines 302-310). -/
def syncTailFinish (retSchema : Option SchemaVal) (opts : Options)
    (parsedArgs : List JSVal) (ret : JSVal) (tr : List Ev) :
    Except JErr JSVal × Options × List Ev :=
  match returnValidation ret retSchema false with
  | .error e => (.error e, opts, tr ++ [.retValFailed e])
  | .ok ret2 =>
    let opts2 : Options := { opts with spyFnCount := opts.spyFnCount + 1 }
    let tr2 := tr ++ [.retValidated ret2, .spyCalled parsedArgs ret2 opts2.spyFnCount]
    match opts2.spyFn parsedArgs ret2 opts2.spyFnCount with
    | .thrown e => (.error e, opts2, tr2)
    | .promise ps =>
      match ps with
      | .ok _ => (.ok ret2, opts2, tr2)
      | .error e => (.error e, opts2, tr2)
    | .value _ => (.ok ret2, opts2, tr2)

/-- The async IIFE entered when a create-materialized callable's
implementation returns a promise (src/index.js lines 291-311): await the
implementation's promise, recover through the error handler on rejection
(a promise from the handler is awaited there), then run the shared tail. -/
def syncAsyncTail (retSchema : Option SchemaVal) (opts : Options)
    (parsedArgs : List JSVal) (p : Except JErr JSVal) :
    Except JErr JSVal × Options × List Ev :=
  match p with
  | .ok ret => syncTailFinish retSchema opts parsedArgs ret []
  | .error err =>
    let tr0 : List Ev := [.implFailed err, .onErrCalled err parsedArgs]
    match opts.onErrorFn err parsedArgs with
    | .thrown e2 => (.error e2, opts, tr0)
    | .value ret => syncTailFinish retSchema opts parsedArgs ret tr0
    | .promise p2 =>
      match p2 with
      | .ok ret => syncTailFinish retSchema opts parsedArgs ret tr0
      | .error e2 => (.error e2, opts, tr0)

/-- One invocation of a callable materialized with create (src/index.js
lines 272-338): validate the passed arguments synchronously, invoke the
current implementation, branch on its immediate outcome, and finish with
return validation and the spy. -/
def syncCall (argSchemas : List SchemaVal) (retSchema : Option SchemaVal)
    (opts : Options) (vs : List JSVal) : SyncRes :=
  match validateArgs argSchemas false 0 vs with
  | .error e => ⟨.thrown e, opts, []⟩
  | .ok parsedArgs =>
    match opts.execFn parsedArgs with
    | .value ret => syncFinish retSchema opts parsedArgs ret [.implCalled parsedArgs]
    | .promise p =>
      let r := syncAsyncTail retSchema opts parsedArgs p
      ⟨.promise r.1, r.2.1, .implCalled parsedArgs :: r.2.2⟩
    | .thrown err =>
      let tr0 : List Ev := [.implCalled parsedArgs, .implFailed err, .onErrCalled err parsedArgs]
      match opts.onErrorFn err parsedArgs with
      | .thrown e2 => ⟨.thrown e2, opts, tr0⟩
      | .promise _ => ⟨.thrown (.zodfn onErrPromiseMsg), opts, tr0 ++ [.rejectionDiscarded]⟩
      | .value ret => syncFinish retSchema opts parsedArgs ret tr0

/-- Result of one invocation of a createAsync-materialized callable: the
settlement of the returned promise, the final Execution Options record, and
the event trace. -/
structure AsyncRes where
  out : Except JErr JSVal
  opts : Options
  trace : List Ev

/-- Tail of the asynchronous pipeline: awaited return validation, spy
counter increment, spy invocation with an awaited result (src/index.js
lines 381-389). -/
def asyncFinish (retSchema : Option SchemaVal) (opts : Options)
    (parsedArgs : List JSVal) (ret : JSVal) (tr : List Ev) : AsyncRes :=
  match returnValidation ret retSchema true with
  | .error e => ⟨.error e, opts, tr ++ [.retValFailed e]⟩
  | .ok ret2 =>
    let opts2 : Options := { opts with spyFnCount := opts.spyFnCount + 1 }
    let tr2 := tr ++ [.retValidated ret2, .spyCalled parsedArgs ret2 opts2.spyFnCount]
    match opts2.spyFn parsedArgs ret2 opts2.spyFnCount with
    | .thrown e => ⟨.error e, opts2, tr2⟩
    | .promise ps =>
      match ps with
      | .ok _ => ⟨.ok ret2, opts2, tr2⟩
      | .error e => ⟨.error e, opts2, tr2⟩
    | .value _ => ⟨.ok ret2, opts2, tr2⟩

/-- One invocation of a callable materialized with createAsync (src/index.js
lines 352-390): validate each argument with the schema's awaited
asynchronous parse, invoke the implementation awaiting a promise result,
recover through the error handler on any throw or rejection (a promise
from the handler is awaited), then finish with awaited return validation
and the spy. -/
def asyncCall (argSchemas : List SchemaVal) (retSchema : Option SchemaVal)
    (opts : Options) (vs : List JSVal) : AsyncRes :=
  match validateArgs argSchemas true 0 vs with
  | .error e => ⟨.error e, opts, []⟩
  | .ok parsedArgs =>
    let settled : Except JErr JSVal :=
      match opts.execFn parsedArgs with
      | .value v => .ok v
      | .promise p => p
      | .thrown e => .error e
    match settled with
    | .ok ret => asyncFinish retSchema opts parsedArgs ret [.implCalled parsedArgs]
    | .error err =>
      let tr0 : List Ev := [.implCalled parsedArgs, .implFailed err, .onErrCalled err parsedArgs]
      match opts.onErrorFn err parsedArgs with
      | .thrown e2 => ⟨.error e2, opts, tr0⟩
      | .value ret => asyncFinish retSchema opts parsedArgs ret tr0
      | .promise p2 =>
        match p2 with
        | .ok ret => asyncFinish retSchema opts parsedArgs ret tr0
        | .error e2 => ⟨.error e2, opts, tr0⟩

/-- An argument passed to a builder or instrumentation method, seen through
the checks the method performs: the JS value undefined, a defined
non-function value, or a function (with its meaning as payload). -/
inductive MutArg (F : Type) where
  | undefJS : MutArg F
  | notFn : MutArg F
  | fn : F → MutArg F

/-- Embedding of the spy mutator installed on a materialized callable
(src/index.js lines 147-159): validate the argument, reset the counter to
zero, and replace the spy. -/
def spy (opts : Options) (a : MutArg (List JSVal → JSVal → Nat → CallOut)) :
    Except JErr Options :=
  match a with
  | .undefJS => .error (.zodfn "Spy handler function not provided")
  | .notFn => .error (.zodfn "Spy handler must be a function")
  | .fn f => .ok { opts with spyFnCount := 0, spyFn := f }

/-- Embedding of the resetSpy mutator (src/index.js lines 161-165): reset
the counter to zero and restore the no-op spy. -/
def resetSpy (opts : Options) : Options :=
  { opts with spyFnCount := 0, spyFn := noopSpy }

/-- Embedding of the onError mutator (src/index.js lines 167-178). -/
def onError (opts : Options) (a : MutArg (JErr → List JSVal → CallOut)) :
    Except JErr Options :=
  match a with
  | .undefJS => .error (.zodfn "onError handler function not provided")
  | .notFn => .error (.zodfn "onError handler must be a function")
  | .fn f => .ok { opts with onErrorFn := f }

/-- The mutable record stored under the _schemas key of a builder
instance. -/
structure SchemasRec where
  args : List SchemaVal
  ret : Option SchemaVal

/-- The record holding no schemas, installed by getBuilderInstance. -/
def emptyRec : SchemasRec := ⟨[], none⟩

/-- Heap of _schemas records; a builder instance holds an index into it, so
in-place mutation of a record is visible through every holder of its
index. -/
structure Heap where
  recs : List SchemasRec

/-- A builder object: the schema-less root export, or a derived instance
identified by the index of its _schemas record. -/
inductive BObj where
  | root : BObj
  | inst : Nat → BObj
deriving DecidableEq

/-- Embedding of getBuilderInstance (src/index.js lines 183-196): an object
already holding a _schemas record is returned unchanged; the root gets a
fresh derived instance with an empty record.  The result is the index of
the instance's record together with the possibly extended heap. -/
def getBuilderInstance (b : BObj) (h : Heap) : Nat × Heap :=
  match b with
  | .inst r => (r, h)
  | .root => (h.recs.length, ⟨h.recs ++ [emptyRec]⟩)

/-- In-place overwrite of the args field of the record at index r. -/
def Heap.setArgs (h : Heap) (r : Nat) (l : List SchemaVal) : Heap :=
  ⟨h.recs.set r { (h.recs.get? r).getD emptyRec with args := l }⟩

/-- In-place overwrite of the return slot of the record at index r. -/
def Heap.setRet (h : Heap) (r : Nat) (s : Option SchemaVal) : Heap :=
  ⟨h.recs.set r { (h.recs.get? r).getD emptyRec with ret := s }⟩

/-- The per-element schema check of the args method (src/index.js lines
206-214): the source tests the parseAsync member twice and never the parse
member; i is the 0-based index into the supplied schemas. -/
def checkSchemas : Nat → List SchemaVal → Except JErr Unit
  | _, [] => .ok ()
  | i, s :: rest =>
    if (!s.parseAsync.isSome) && (!s.parseAsync.isSome) then
      .error (.zodfn (natToStr (i + 1) ++ getOrdinalSuffix (i + 1) ++
        " argument must be a valid Zod schema"))
    else checkSchemas (i + 1) rest

/-- Embedding of the args builder method (src/index.js lines 199-218):
derive or reuse the instance, require at least one schema, check every
schema, then overwrite the instance's argument list wholesale. -/
def args (b : BObj) (h : Heap) (argSchemas : List SchemaVal) :
    Except JErr (BObj × Heap) :=
  let bh := getBuilderInstance b h
  if argSchemas.length = 0 then .error (.zodfn "Argument schemas not provided")
  else
    match checkSchemas 0 argSchemas with
    | .error e => .error e
    | .ok _ => .ok (.inst bh.1, bh.2.setArgs bh.1 argSchemas)

/-- Embedding of the returns builder method (src/index.js lines 220-236);
the argument is none when the method is called with undefined.  The source
tests the parseAsync member twice and never the parse member. -/
def returns (b : BObj) (h : Heap) (returnSchema : Option SchemaVal) :
    Except JErr (BObj × Heap) :=
  let bh := getBuilderInstance b h
  match returnSchema with
  | none => .error (.zodfn "Return schema not provided")
  | some s =>
    if (!s.parseAsync.isSome) && (!s.parseAsync.isSome) then
      .error (.zodfn "Return value must be a valid Zod schema")
    else .ok (.inst bh.1, bh.2.setRet bh.1 (some s))

/-- The value returned by a build configurator, seen through the shape
check build performs: either not a plain object, or an object whose args
and returns keys are each absent-or-falsy (none) or present (some). -/
inductive BuildCfg where
  | invalid : BuildCfg
  | obj : Option (List SchemaVal) → Option SchemaVal → BuildCfg

/-- Embedding of the build builder method (src/index.js lines 238-259):
derive or reuse the instance, validate the configurator and its result
shape, then delegate each present key to args and returns on the derived
instance. -/
def build (b : BObj) (h : Heap) (fnArg : MutArg BuildCfg) :
    Except JErr (BObj × Heap) :=
  let bh := getBuilderInstance b h
  match fnArg with
  | .undefJS => .error (.zodfn "Build function argument not provided")
  | .notFn => .error (.zodfn "Build argument must be a function")
  | .fn cfg =>
    match cfg with
    | .invalid => .error (.zodfn "Build function return value is not valid")
    | .obj oargs oret =>
      match (match oargs with
             | some l => args (.inst bh.1) bh.2 l
             | none => .ok (.inst bh.1, bh.2)) with
      | .error e => .error e
      | .ok (_, h2) =>
        match (match oret with
               | some s => returns (.inst bh.1) h2 (some s)
               | none => .ok (.inst bh.1, h2)) with
        | .error e => .error e
        | .ok (_, h3) => .ok (.inst bh.1, h3)

/-- Embedding of the create builder method (src/index.js lines 261-339):
validate the implementation, derive or reuse the builder instance, and
materialize a callable bound to the index of that instance's schema record
together with a fresh Execution Options record. -/
def create (b : BObj) (h : Heap) (fn : MutArg (List JSVal → CallOut)) :
    Except JErr (Nat × Options × Heap) :=
  match fn with
  | .undefJS => .error (.zodfn "Create function not provided")
  | .notFn => .error (.zodfn "Create argument must be a function")
  | .fn f =>
    let bh := getBuilderInstance b h
    .ok (bh.1, initOptions f, bh.2)

/-- Embedding of the createAsync builder method (src/index.js lines
341-391): same materialization as create, with the asynchronous per-call
pipeline. -/
def createAsync (b : BObj) (h : Heap) (fn : MutArg (List JSVal → CallOut)) :
    Except JErr (Nat × Options × Heap) :=
  match fn with
  | .undefJS => .error (.zodfn "Create function not provided")
  | .notFn => .error (.zodfn "Create argument must be a function")
  | .fn f =>
    let bh := getBuilderInstance b h
    .ok (bh.1, initOptions f, bh.2)

/-- Invoking a create-materialized callable: the schema record is read from
the heap at call time through the index captured at materialization
(src/index.js lines 276 and 302/325 read builder._schemas live). -/
def invoke (ref : Nat) (h : Heap) (opts : Options) (vs : List JSVal) : SyncRes :=
  let r := (h.recs.get? ref).getD emptyRec
  syncCall r.args r.ret opts vs

/-- Invoking a createAsync-materialized callable: the schema record is read
from the heap at call time through the captured index. -/
def invokeAsync (ref : Nat) (h : Heap) (opts : Options) (vs : List JSVal) : AsyncRes :=
  let r := (h.recs.get? ref).getD emptyRec
  asyncCall r.args r.ret opts vs

/-- A schema accepting every value unchanged. -/
def okSchema : SchemaVal :=
  { parse := some (fun v => .ok v), parseAsync := some (fun v => .ok v) }

/-- A validator error whose message is a plain, non-JSON string. -/
def badZErr : ZErr := ⟨"always fails", .failed⟩

/-- A schema rejecting every value with a plain-message validator error. -/
def rejectSchema : SchemaVal :=
  { parse := some (fun _ => .error badZErr), parseAsync := some (fun _ => .error badZErr) }

/-- A schema exposing only a callable parseAsync member and no parse
member. -/
def onlyAsyncSchema : SchemaVal :=
  { parse := none, parseAsync := some (fun v => .ok v) }

/-- The empty heap present before any builder chain is started. -/
def h0 : Heap := ⟨[]⟩

/-- An implementation returning its first argument as a plain value. -/
def implHead : List JSVal → CallOut := fun vs => .value (vs.headD .undefJS)

/-- An implementation that always throws a user error. -/
def implThrow : List JSVal → CallOut := fun _ => .thrown (.other (.str "boom"))

example : getOrdinalSuffix 1 = "st" := by decide
example : getOrdinalSuffix 13 = "th" := by decide
example : getOrdinalSuffix 21 = "st" := by decide
example : natToStr 123 = "123" := rfl
example : fixGuidance "use parseAsync() here" = "use createAsync() here" := rfl
example : fixGuidance "plain" = "plain" := rfl
example :
    argThrowMsg 2 ⟨"raw", .array [⟨"Expected number", some ["a", "b"]⟩]⟩ =
      "Validation failed for 2nd argument - Path: a.b - Expected number" := rfl
example :
    retThrowMsg ⟨"raw", .array [⟨"Expected number", some []⟩]⟩ =
      "Validation failed for return value - Expected number" := rfl
example :
    (syncCall [okSchema] none (initOptions implHead) [.num 7]).out = .value (.num 7) := rfl
example :
    (syncCall [rejectSchema] none (initOptions implHead) [.num 7]).out =
      .thrown (.zodfn "always fails") := rfl
example :
    (asyncCall [okSchema] none (initOptions implHead) [.num 7]).out = .ok (.num 7) := rfl
example :
    args .root h0 [okSchema] = .ok (.inst 0, ⟨[⟨[okSchema], none⟩]⟩) := rfl

/-- Ordinal suffix as the claim words it (spec side of the refinement):
the suffix is st, nd, rd for last digit 1, 2, 3, except that numbers whose
standard ordinals are irregular (residue 11 to 13 mod 100) take th, and
every other number takes th. -/
def specOrdinalSuffix (n : Nat) : String :=
  if n % 100 = 11 ∨ n % 100 = 12 ∨ n % 100 = 13 then "th"
  else if n % 10 = 1 then "st"
  else if n % 10 = 2 then "nd"
  else if n % 10 = 3 then "rd"
  else "th"

theorem getOrdinalSuffix_mod_100 (n : Nat) :
    getOrdinalSuffix n = getOrdinalSuffix (n % 100) := by
  simp only [getOrdinalSuffix]
  rw [show n % 10 = n % 100 % 10 from (Nat.mod_mod_of_dvd n (by norm_num)).symm,
    Nat.mod_mod_of_dvd n (dvd_refl 100)]

theorem specOrdinalSuffix_mod_100 (n : Nat) :
    specOrdinalSuffix n = specOrdinalSuffix (n % 100) := by
  simp only [specOrdinalSuffix]
  rw [show n % 10 = n % 100 % 10 from (Nat.mod_mod_of_dvd n (by norm_num)).symm,
    Nat.mod_mod_of_dvd n (dvd_refl 100)]

theorem getOrdinalSuffix_eq_spec (n : Nat) :
    getOrdinalSuffix n = specOrdinalSuffix n := by
  have key : ∀ k, k < 100 → getOrdinalSuffix k = specOrdinalSuffix k := by decide
  rw [getOrdinalSuffix_mod_100, specOrdinalSuffix_mod_100]
  exact key (n % 100) (Nat.mod_lt n (by norm_num))

theorem getOrdinalSuffix_cases (n : Nat) :
    getOrdinalSuffix n = "st" ∨ getOrdinalSuffix n = "nd" ∨
      getOrdinalSuffix n = "rd" ∨ getOrdinalSuffix n = "th" := by
  simp only [getOrdinalSuffix]
  split_ifs <;> simp

theorem natToCharsAux_mem (fuel : Nat) :
    ∀ n acc c, c ∈ natToCharsAux fuel n acc →
      (∃ d, d < 10 ∧ c = digitChar d) ∨ c ∈ acc := by
  induction fuel with
  | zero => intro n acc c hc; exact Or.inr hc
  | succ fuel ih =>
    intro n acc c hc
    rw [natToCharsAux] at hc
    split at hc
    · rcases List.mem_cons.mp hc with hc | hc
      · exact Or.inl ⟨n, by omega, hc⟩
      · exact Or.inr hc
    · rcases ih (n / 10) (digitChar (n % 10) :: acc) c hc with hd | hd
      · exact Or.inl hd
      · rcases List.mem_cons.mp hd with hd | hd
        · exact Or.inl ⟨n % 10, Nat.mod_lt n (by omega), hd⟩
        · exact Or.inr hd

theorem natToChars_no_p (n : Nat) : ∀ c ∈ natToChars n, c ≠ 'p' := by
  intro c hc
  have hd : ∀ d, d < 10 → digitChar d ≠ 'p' := by decide
  rcases natToCharsAux_mem (n + 1) n [] c hc with ⟨d, hlt, rfl⟩ | h
  · exact hd d hlt
  · cases h

theorem replaceFirstL_cons_ne (c c0 : Char) (xs tl rep : List Char)
    (hc : c ≠ c0) :
    replaceFirstL (c :: xs) (c0 :: tl) rep = c :: replaceFirstL xs (c0 :: tl) rep := by
  have hpre : (c0 :: tl).isPrefixOf (c :: xs) = false := by
    show ((c0 == c) && tl.isPrefixOf xs) = false
    have : (c0 == c) = false := beq_eq_false_iff_ne.mpr fun h => hc h.symm
    rw [this, Bool.false_and]
  rw [replaceFirstL, hpre]
  simp

theorem replaceFirstL_append_left (l₁ l₂ rep : List Char) (c0 : Char)
    (tl : List Char) (h : ∀ c ∈ l₁, c ≠ c0) :
    replaceFirstL (l₁ ++ l₂) (c0 :: tl) rep = l₁ ++ replaceFirstL l₂ (c0 :: tl) rep := by
  induction l₁ with
  | nil => simp
  | cons c rest ih =>
    rw [List.cons_append,
      replaceFirstL_cons_ne c c0 (rest ++ l₂) tl rep (h c (List.mem_cons_self c rest)),
      ih (fun d hd => h d (List.mem_cons_of_mem c hd)), List.cons_append]

theorem fixGuidance_data (s : String) :
    (fixGuidance s).data = replaceFirstL s.data "parseAsync()".data "createAsync()".data := rfl

theorem natToStr_data (n : Nat) : (natToStr n).data = natToChars n := rfl

/-- A prefix of the raw message that contains no lowercase p survives the
guidance-text substitution, whose pattern starts with lowercase p. -/
theorem prefix_fixGuidance (s : String) (P : List Char)
    (hs : P <+: s.data) (h : ∀ c ∈ P, c ≠ 'p') :
    P <+: (fixGuidance s).data := by
  obtain ⟨t, ht⟩ := hs
  rw [fixGuidance_data, ← ht,
    show "parseAsync()".data = 'p' :: "arseAsync()".data from rfl,
    replaceFirstL_append_left P t _ 'p' _ h]
  exact List.prefix_append _ _

theorem argPrefix_no_p (n : Nat) :
    ∀ c ∈ ("Validation failed for ".data ++ natToChars n ++ (getOrdinalSuffix n).data ++
      " argument".data), c ≠ 'p' := by
  have hA : ∀ c ∈ "Validation failed for ".data, c ≠ 'p' := by decide
  have hD : ∀ c ∈ " argument".data, c ≠ 'p' := by decide
  have hS : ∀ c ∈ (getOrdinalSuffix n).data, c ≠ 'p' := by
    have h4 := getOrdinalSuffix_cases n
    rcases h4 with h | h | h | h <;> rw [h] <;> decide
  intro c hc
  rcases List.mem_append.mp hc with h1 | h1
  · rcases List.mem_append.mp h1 with h2 | h2
    · rcases List.mem_append.mp h2 with h3 | h3
      · exact hA c h3
      · exact natToChars_no_p n c h3
    · exact hS c h2
  · exact hD c h1

/-- The position label survives the whole structured-message construction
when it contains no lowercase p. -/
theorem structuredMsg_prefix (label : String) (iss : Issue)
    (h : ∀ c ∈ label.data, c ≠ 'p') :
    label.data <+: (structuredMsg label iss).data := by
  simp only [structuredMsg]
  apply prefix_fixGuidance _ _ ?_ h
  by_cases hje : joinPath (iss.path.getD []) ≠ "" <;>
    simp [hje, String.data_append, List.append_assoc, List.prefix_append,
      List.prefix_append_right_inj]

/--
C6: when a schema failure yields a parsable structured issue list whose
first issue has a message and a path, the produced error message begins
with the text Validation failed for, then the decimal position with its
ordinal suffix and the word argument (for argument schemas), or the text
Validation failed for return value (for the return schema); the ordinal
suffix agrees everywhere with the standard English rule the claim states
(st, nd, rd for last digit 1, 2, 3 except residues 11 to 13 mod 100, th
otherwise), and in particular at 1, 2, 3, 4, 11, 12, 13, 21 it is
st, nd, rd, th, th, th, th, st.
-/
theorem c6_message_format :
    (∀ n, getOrdinalSuffix n = specOrdinalSuffix n) ∧
    (getOrdinalSuffix 1 = "st" ∧ getOrdinalSuffix 2 = "nd" ∧ getOrdinalSuffix 3 = "rd" ∧
      getOrdinalSuffix 4 = "th" ∧ getOrdinalSuffix 11 = "th" ∧ getOrdinalSuffix 12 = "th" ∧
      getOrdinalSuffix 13 = "th" ∧ getOrdinalSuffix 21 = "st") ∧
    (∀ (n : Nat) (e : ZErr) (iss : Issue) (rest : List Issue),
      e.parsed = .array (iss :: rest) → iss.message ≠ "" → iss.path.isSome →
      ("Validation failed for ".data ++ natToChars n ++ (getOrdinalSuffix n).data ++
        " argument".data) <+: (argThrowMsg n e).data) ∧
    (∀ (e : ZErr) (iss : Issue) (rest : List Issue),
      e.parsed = .array (iss :: rest) → iss.message ≠ "" → iss.path.isSome →
      "Validation failed for return value".data <+: (retThrowMsg e).data) := by
  refine ⟨getOrdinalSuffix_eq_spec, by decide, ?_, ?_⟩
  · intro n e iss rest hp hm hpath
    obtain ⟨raw, parsed⟩ := e
    simp only at hp
    subst hp
    have hlab : ("Validation failed for " ++
        (natToStr n ++ getOrdinalSuffix n) ++ " argument").data =
        "Validation failed for ".data ++ natToChars n ++ (getOrdinalSuffix n).data ++
          " argument".data := by
      simp [String.data_append, natToStr_data, List.append_assoc]
    have hred : argThrowMsg n ⟨raw, .array (iss :: rest)⟩ =
        structuredMsg ("Validation failed for " ++
          (natToStr n ++ getOrdinalSuffix n) ++ " argument") iss := by
      simp only [argThrowMsg]
      rw [if_pos ⟨hm, hpath⟩]
    rw [hred, ← hlab]
    exact structuredMsg_prefix _ _ (by rw [hlab]; exact argPrefix_no_p n)
  · intro e iss rest hp hm hpath
    obtain ⟨raw, parsed⟩ := e
    simp only at hp
    subst hp
    have hred : retThrowMsg ⟨raw, .array (iss :: rest)⟩ =
        structuredMsg "Validation failed for return value" iss := by
      simp only [retThrowMsg]
      rw [if_pos ⟨hm, hpath⟩]
    rw [hred]
    exact structuredMsg_prefix _ _ (by decide)

/-- Witness for C6 at concrete inputs: position 2 with a structured issue,
and a return-value failure with an empty path. -/
theorem c6_message_format_witness :
    ("Validation failed for ".data ++ natToChars 2 ++ (getOrdinalSuffix 2).data ++
      " argument".data) <+:
        (argThrowMsg 2 ⟨"raw", .array [⟨"Expected number", some ["a"]⟩]⟩).data ∧
    "Validation failed for return value".data <+:
      (retThrowMsg ⟨"raw", .array [⟨"bad", some []⟩]⟩).data :=
  ⟨c6_message_format.2.2.1 2 ⟨"raw", .array [⟨"Expected number", some ["a"]⟩]⟩
      ⟨"Expected number", some ["a"]⟩ [] rfl (by decide) rfl,
    c6_message_format.2.2.2 ⟨"raw", .array [⟨"bad", some []⟩]⟩
      ⟨"bad", some []⟩ [] rfl (by decide) rfl⟩

/-- The argument-validation loop looks up schemas only at the 0-based
positions of actually passed arguments. -/
theorem validateArgs_congr (s1 s2 : List SchemaVal) (isAsync : Bool) :
    ∀ (vs : List JSVal) (i : Nat),
      (∀ j, j < vs.length → s1.get? (i + j) = s2.get? (i + j)) →
      validateArgs s1 isAsync i vs = validateArgs s2 isAsync i vs := by
  intro vs
  induction vs with
  | nil => intro i _; rfl
  | cons a rest ih =>
    intro i h
    have h0 : s1.get? i = s2.get? i := by
      have := h 0 (by simp)
      simpa using this
    have hrest : ∀ j, j < rest.length → s1.get? (i + 1 + j) = s2.get? (i + 1 + j) := by
      intro j hj
      have := h (j + 1) (by simp; omega)
      rw [show i + (j + 1) = i + 1 + j by omega] at this
      exact this
    rw [validateArgs, validateArgs, ← h0, ih (i + 1) hrest]

/--
C10: a materialized callable invoked with fewer call arguments than there
are configured argument schemas validates only the positions of actually
passed arguments; schemas at positions at or beyond the argument count are
never applied (not even to undefined), so both pipelines behave identically
under any replacement of those trailing schemas.
-/
theorem c10_trailing_schemas_unapplied (s1 s2 : List SchemaVal)
    (retSchema : Option SchemaVal) (opts : Options) (vs : List JSVal)
    (h : ∀ j, j < vs.length → s1.get? j = s2.get? j) :
    syncCall s1 retSchema opts vs = syncCall s2 retSchema opts vs ∧
    asyncCall s1 retSchema opts vs = asyncCall s2 retSchema opts vs := by
  have hs : ∀ b, validateArgs s1 b 0 vs = validateArgs s2 b 0 vs := by
    intro b
    exact validateArgs_congr s1 s2 b vs 0 (by simpa using h)
  constructor
  · rw [syncCall, syncCall, hs false]
  · rw [asyncCall, asyncCall, hs true]

/-- Witness for C10: with one passed argument, a second schema rejecting
every value (undefined included) is never applied, and the call succeeds. -/
theorem c10_trailing_schemas_unapplied_witness :
    syncCall [okSchema, rejectSchema] none (initOptions implHead) [.num 7] =
      syncCall [okSchema] none (initOptions implHead) [.num 7] ∧
    (syncCall [okSchema, rejectSchema] none (initOptions implHead) [.num 7]).out =
      .value (.num 7) := by
  constructor
  · exact (c10_trailing_schemas_unapplied [okSchema, rejectSchema] [okSchema] none
      (initOptions implHead) [.num 7]
      (by
        intro j hj
        have hj0 : j = 0 := by simp at hj; omega
        subst hj0; rfl)).1
  · rfl

theorem checkSchemas_ok_iff (l : List SchemaVal) :
    ∀ i, checkSchemas i l = .ok () ↔ ∀ s ∈ l, s.parseAsync.isSome := by
  induction l with
  | nil => intro i; simp [checkSchemas]
  | cons a rest ih =>
    intro i
    rw [checkSchemas]
    cases ha : a.parseAsync.isSome
    · simp [ha]
    · simp [ha, ih (i + 1)]

theorem checkSchemas_first_bad (l : List SchemaVal) :
    ∀ (i k : Nat) (s : SchemaVal), l.get? k = some s → s.parseAsync = none →
      (∀ j s', j < k → l.get? j = some s' → s'.parseAsync.isSome) →
      checkSchemas i l = .error (.zodfn (natToStr (i + k + 1) ++
        getOrdinalSuffix (i + k + 1) ++ " argument must be a valid Zod schema")) := by
  induction l with
  | nil => intro i k s hk; simp at hk
  | cons a rest ih =>
    intro i k s hk hnone hprev
    cases k with
    | zero =>
      simp at hk
      subst hk
      rw [checkSchemas]
      simp [hnone]
    | succ k' =>
      have ha : a.parseAsync.isSome := hprev 0 a (Nat.succ_pos k') rfl
      rw [checkSchemas]
      simp only [ha, Bool.not_true, Bool.false_and, Bool.and_self, if_false,
        Bool.false_eq_true, ite_false]
      have hrec := ih (i + 1) k' s (by simpa using hk) hnone
        (fun j s' hj hg => hprev (j + 1) s' (by omega) (by simpa using hg))
      rw [show i + 1 + k' + 1 = i + (k' + 1) + 1 from by omega] at hrec
      exact hrec

/--
C7: the args and returns builder methods accept a supplied value as a valid
schema exactly when it exposes a callable parseAsync member; the
synchronous parse capability is never part of the acceptance condition, and
a value lacking a callable parseAsync is rejected with a ZodFnError naming
the 1-based offending position (for args) or the return slot (for
returns).
-/
theorem c7_schema_acceptance :
    (∀ (b : BObj) (h : Heap) (l : List SchemaVal),
      (∃ p, args b h l = .ok p) ↔ (l ≠ [] ∧ ∀ s ∈ l, s.parseAsync.isSome)) ∧
    (∀ (b : BObj) (h : Heap) (l : List SchemaVal) (k : Nat) (s : SchemaVal),
      l.get? k = some s → s.parseAsync = none →
      (∀ j s', j < k → l.get? j = some s' → s'.parseAsync.isSome) →
      args b h l = .error (.zodfn (natToStr (k + 1) ++ getOrdinalSuffix (k + 1) ++
        " argument must be a valid Zod schema"))) ∧
    (∀ (b : BObj) (h : Heap) (s : SchemaVal),
      (∃ p, returns b h (some s) = .ok p) ↔ s.parseAsync.isSome) ∧
    (∀ (b : BObj) (h : Heap) (s : SchemaVal), s.parseAsync = none →
      returns b h (some s) = .error (.zodfn "Return value must be a valid Zod schema")) := by
  refine ⟨?_, ?_, ?_, ?_⟩
  · intro b h l
    simp only [args]
    by_cases hl : l.length = 0
    · rw [if_pos hl]
      simp [List.length_eq_zero.mp hl]
    · rw [if_neg hl]
      have hne : l ≠ [] := by
        intro hcon; rw [hcon] at hl; exact hl rfl
      cases hcs : checkSchemas 0 l with
      | error e =>
        dsimp only
        constructor
        · intro hp
          obtain ⟨p, hp⟩ := hp
          cases hp
        · intro hall
          rw [(checkSchemas_ok_iff l 0).mpr hall.2] at hcs
          cases hcs
      | ok u =>
        cases u
        dsimp only
        have hall := (checkSchemas_ok_iff l 0).mp hcs
        exact ⟨fun _ => ⟨hne, hall⟩, fun _ => ⟨_, rfl⟩⟩
  · intro b h l k s hk hnone hprev
    have hlen : l.length ≠ 0 := by
      intro hcon
      rw [List.length_eq_zero.mp hcon] at hk
      cases hk
    simp only [args]
    rw [if_neg hlen, checkSchemas_first_bad l 0 k s hk hnone hprev,
      show 0 + k + 1 = k + 1 from by omega]
  · intro b h s
    simp only [returns]
    cases hs : s.parseAsync.isSome <;> simp [hs]
  · intro b h s hnone
    simp only [returns]
    simp [hnone]

/-- Witness for C7: a value with parseAsync but no parse member is accepted
by args and returns; the number-like value with neither member is rejected
with the position-naming message. -/
theorem c7_schema_acceptance_witness :
    (∃ p, args .root h0 [onlyAsyncSchema] = .ok p) ∧
    (∃ p, returns .root h0 (some onlyAsyncSchema) = .ok p) ∧
    args .root h0 [okSchema, ⟨none, none⟩] =
      .error (.zodfn (natToStr 2 ++ getOrdinalSuffix 2 ++
        " argument must be a valid Zod schema")) ∧
    returns .root h0 (some ⟨some (fun v => .ok v), none⟩) =
      .error (.zodfn "Return value must be a valid Zod schema") := by
  refine ⟨?_, ?_, ?_, ?_⟩
  · exact (c7_schema_acceptance.1 .root h0 [onlyAsyncSchema]).mpr
      ⟨by simp, by intro s hs; rw [List.mem_singleton] at hs; subst hs; rfl⟩
  · exact (c7_schema_acceptance.2.2.1 .root h0 onlyAsyncSchema).mpr rfl
  · exact c7_schema_acceptance.2.1 .root h0 [okSchema, ⟨none, none⟩] 1 ⟨none, none⟩ rfl rfl
      (by
        intro j s' hj hg
        have hj0 : j = 0 := by omega
        subst hj0
        simp at hg
        subst hg
        rfl)
  · exact c7_schema_acceptance.2.2.2 .root h0 ⟨some (fun v => .ok v), none⟩ rfl

theorem setArgs_get?_ne (h : Heap) (r j : Nat) (l : List SchemaVal) (hne : r ≠ j) :
    (h.setArgs r l).recs.get? j = h.recs.get? j := by
  unfold Heap.setArgs
  exact List.get?_set_ne _ _ hne

theorem setRet_get?_ne (h : Heap) (r j : Nat) (s : Option SchemaVal) (hne : r ≠ j) :
    (h.setRet r s).recs.get? j = h.recs.get? j := by
  unfold Heap.setRet
  exact List.get?_set_ne _ _ hne

/-- A heap extended with a fresh record keeps every previously allocated
record readable unchanged. -/
theorem extend_get?_lt (h : Heap) (j : Nat) (hj : j < h.recs.length) :
    (h.recs ++ [emptyRec]).get? j = h.recs.get? j :=
  List.get?_append hj

/-- Success of args on an instance returns the receiver and overwrites its
record's argument list in place. -/
theorem args_inst_ok (h : Heap) (r : Nat) (l : List SchemaVal) (b' : BObj) (h' : Heap)
    (hok : args (.inst r) h l = .ok (b', h')) :
    b' = .inst r ∧ h' = h.setArgs r l := by
  simp only [args, getBuilderInstance] at hok
  split at hok
  · cases hok
  · split at hok
    · cases hok
    · cases hok
      exact ⟨rfl, rfl⟩

/-- Success of returns on an instance returns the receiver and overwrites
its record's return slot in place. -/
theorem returns_inst_ok (h : Heap) (r : Nat) (s : Option SchemaVal) (b' : BObj) (h' : Heap)
    (hok : returns (.inst r) h s = .ok (b', h')) :
    b' = .inst r ∧ ∃ sv, s = some sv ∧ h' = h.setRet r (some sv) := by
  simp only [returns, getBuilderInstance] at hok
  cases s with
  | none => cases hok
  | some sv =>
    simp only at hok
    split at hok
    · cases hok
    · cases hok
      exact ⟨rfl, sv, rfl, rfl⟩

/-- Success of args on the root allocates a fresh record at the old heap
length and leaves every existing record untouched. -/
theorem args_root_ok (h : Heap) (l : List SchemaVal) (b' : BObj) (h' : Heap)
    (hok : args .root h l = .ok (b', h')) :
    b' = .inst h.recs.length ∧
      ∀ j, j < h.recs.length → h'.recs.get? j = h.recs.get? j := by
  simp only [args, getBuilderInstance] at hok
  split at hok
  · cases hok
  · split at hok
    · cases hok
    · cases hok
      refine ⟨rfl, fun j hj => ?_⟩
      rw [setArgs_get?_ne _ _ _ _ (by omega)]
      exact extend_get?_lt h j hj

/-- Success of returns on the root allocates a fresh record at the old heap
length and leaves every existing record untouched. -/
theorem returns_root_ok (h : Heap) (s : Option SchemaVal) (b' : BObj) (h' : Heap)
    (hok : returns .root h s = .ok (b', h')) :
    b' = .inst h.recs.length ∧
      ∀ j, j < h.recs.length → h'.recs.get? j = h.recs.get? j := by
  simp only [returns, getBuilderInstance] at hok
  cases s with
  | none => cases hok
  | some sv =>
    simp only at hok
    split at hok
    · cases hok
    · cases hok
      refine ⟨rfl, fun j hj => ?_⟩
      rw [setRet_get?_ne _ _ _ _ (by omega)]
      exact extend_get?_lt h j hj

/-- Success of build on the root yields the freshly allocated instance and
leaves every existing record untouched. -/
theorem build_root_ok (h : Heap) (fa : MutArg BuildCfg) (b' : BObj) (h' : Heap)
    (hok : build .root h fa = .ok (b', h')) :
    b' = .inst h.recs.length ∧
      ∀ j, j < h.recs.length → h'.recs.get? j = h.recs.get? j := by
  simp only [build, getBuilderInstance] at hok
  cases fa with
  | undefJS => cases hok
  | notFn => cases hok
  | fn cfg =>
    cases cfg with
    | invalid => cases hok
    | obj oargs oret =>
      simp only at hok
      cases h2m : (match oargs with
          | some l => args (.inst h.recs.length) ⟨h.recs ++ [emptyRec]⟩ l
          | none => .ok (.inst h.recs.length, ⟨h.recs ++ [emptyRec]⟩)) with
      | error e => rw [h2m] at hok; cases hok
      | ok p2 =>
        rw [h2m] at hok
        obtain ⟨b2, h2⟩ := p2
        dsimp only at hok
        have hp2 : ∀ j, j < h.recs.length → h2.recs.get? j = (⟨h.recs ++ [emptyRec]⟩ : Heap).recs.get? j := by
          cases oargs with
          | none => cases h2m; intro j hj; rfl
          | some l =>
            intro j hj
            obtain ⟨_, rfl⟩ := args_inst_ok _ _ _ _ _ h2m
            exact setArgs_get?_ne _ _ _ _ (by omega)
        cases h3m : (match oret with
            | some s => returns (.inst h.recs.length) h2 (some s)
            | none => .ok (.inst h.recs.length, h2)) with
        | error e => rw [h3m] at hok; cases hok
        | ok p3 =>
          rw [h3m] at hok
          obtain ⟨b3, h3⟩ := p3
          dsimp only at hok
          have hp3 : ∀ j, j < h.recs.length → h3.recs.get? j = h2.recs.get? j := by
            cases oret with
            | none => cases h3m; intro j hj; rfl
            | some s =>
              intro j hj
              obtain ⟨_, sv, _, rfl⟩ := returns_inst_ok h2 h.recs.length (some s) b3 h3 h3m
              exact setRet_get?_ne h2 h.recs.length j (some sv) (by omega)
          cases hok
          refine ⟨rfl, fun j hj => ?_⟩
          rw [hp3 j hj, hp2 j hj]
          exact extend_get?_lt h j hj

/--
C9: the root builder export is never mutated by a configuration call: the
first args, returns, build, create, or createAsync step on the schema-less
root allocates a fresh derived instance holding the schema record and
leaves every previously allocated record unchanged, so two chains each
started from the root obtain distinct records and cannot affect one
another.
-/
theorem c9_root_chains_disjoint :
    (∀ (h : Heap) (l : List SchemaVal) (b' : BObj) (h' : Heap),
      args .root h l = .ok (b', h') →
      b' = .inst h.recs.length ∧
        ∀ j, j < h.recs.length → h'.recs.get? j = h.recs.get? j) ∧
    (∀ (h : Heap) (s : Option SchemaVal) (b' : BObj) (h' : Heap),
      returns .root h s = .ok (b', h') →
      b' = .inst h.recs.length ∧
        ∀ j, j < h.recs.length → h'.recs.get? j = h.recs.get? j) ∧
    (∀ (h : Heap) (fa : MutArg BuildCfg) (b' : BObj) (h' : Heap),
      build .root h fa = .ok (b', h') →
      b' = .inst h.recs.length ∧
        ∀ j, j < h.recs.length → h'.recs.get? j = h.recs.get? j) ∧
    (∀ (h : Heap) (f : List JSVal → CallOut) (r : Nat) (o : Options) (h' : Heap),
      create .root h (.fn f) = .ok (r, o, h') →
      r = h.recs.length ∧ ∀ j, j < h.recs.length → h'.recs.get? j = h.recs.get? j) ∧
    (∀ (h : Heap) (f : List JSVal → CallOut) (r : Nat) (o : Options) (h' : Heap),
      createAsync .root h (.fn f) = .ok (r, o, h') →
      r = h.recs.length ∧ ∀ j, j < h.recs.length → h'.recs.get? j = h.recs.get? j) ∧
    (∀ (h : Heap) (l1 l2 : List SchemaVal) (b1 b2 : BObj) (h1 h2 : Heap),
      args .root h l1 = .ok (b1, h1) → args .root h1 l2 = .ok (b2, h2) →
      b1 ≠ b2 ∧ h2.recs.get? h.recs.length = h1.recs.get? h.recs.length) := by
  refine ⟨args_root_ok, returns_root_ok, build_root_ok, ?_, ?_, ?_⟩
  · intro h f r o h' hok
    simp only [create, getBuilderInstance] at hok
    cases hok
    exact ⟨rfl, fun j hj => extend_get?_lt h j hj⟩
  · intro h f r o h' hok
    simp only [createAsync, getBuilderInstance] at hok
    cases hok
    exact ⟨rfl, fun j hj => extend_get?_lt h j hj⟩
  · intro h l1 l2 b1 b2 h1 h2 hok1 hok2
    obtain ⟨hb1, _⟩ := args_root_ok h l1 b1 h1 hok1
    obtain ⟨hb2, hp2⟩ := args_root_ok h1 l2 b2 h2 hok2
    have hset : h1 = (⟨h.recs ++ [emptyRec]⟩ : Heap).setArgs h.recs.length l1 := by
      simp only [args, getBuilderInstance] at hok1
      split at hok1
      · cases hok1
      · split at hok1
        · cases hok1
        · cases hok1; rfl
    have hlen : h1.recs.length = h.recs.length + 1 := by
      rw [hset]
      unfold Heap.setArgs
      simp
    constructor
    · rw [hb1, hb2]
      intro hcon
      injection hcon with hcon2
      omega
    · exact hp2 h.recs.length (by omega)

/-- Witness for C9: two chains started from the root get the distinct
instances 0 and 1, and the second chain leaves the first chain's record
unchanged. -/
theorem c9_root_chains_disjoint_witness :
    BObj.inst 0 ≠ BObj.inst 1 ∧
    (⟨[⟨[okSchema], none⟩, ⟨[rejectSchema], none⟩]⟩ : Heap).recs.get? 0 =
      (⟨[⟨[okSchema], none⟩]⟩ : Heap).recs.get? 0 :=
  c9_root_chains_disjoint.2.2.2.2.2 h0 [okSchema] [rejectSchema]
    (.inst 0) (.inst 1) ⟨[⟨[okSchema], none⟩]⟩
    ⟨[⟨[okSchema], none⟩, ⟨[rejectSchema], none⟩]⟩ rfl rfl

/--
Counterexample to C5: a configuration step on a builder that already holds
schema state does not yield a new builder value and does not leave the
receiver's observable configuration unchanged.  Concretely, after
b = zfn.args(okSchema) the call b.returns(okSchema) returns the very same
builder instance 0 and changes the record observable through b from a
record with an empty return slot to one holding okSchema.
-/
theorem c5_counterexample :
    args .root h0 [okSchema] = .ok (.inst 0, ⟨[⟨[okSchema], none⟩]⟩) ∧
    returns (.inst 0) ⟨[⟨[okSchema], none⟩]⟩ (some okSchema) =
      .ok (.inst 0, ⟨[⟨[okSchema], some okSchema⟩]⟩) ∧
    ((⟨[⟨[okSchema], none⟩]⟩ : Heap).recs.getD 0 emptyRec).ret = none ∧
    ((⟨[⟨[okSchema], some okSchema⟩]⟩ : Heap).recs.getD 0 emptyRec).ret = some okSchema :=
  ⟨rfl, rfl, rfl, rfl⟩

/--
C5 as amended: only the first configuration step on the schema-less root
yields a new builder value; an args or returns step on a builder instance
that already holds schema state returns the receiver itself and overwrites
its schema record in place (args the argument list, returns the return
slot), so sibling chains derived from one configured builder share that
mutable record, while records other than the receiver's are never
touched.
-/
theorem c5_amended_in_place_mutation :
    (∀ (h : Heap) (r : Nat) (l : List SchemaVal) (b' : BObj) (h' : Heap),
      args (.inst r) h l = .ok (b', h') → b' = .inst r ∧ h' = h.setArgs r l) ∧
    (∀ (h : Heap) (r : Nat) (s : Option SchemaVal) (b' : BObj) (h' : Heap),
      returns (.inst r) h s = .ok (b', h') →
      b' = .inst r ∧ ∃ sv, s = some sv ∧ h' = h.setRet r (some sv)) ∧
    (∀ (h : Heap) (r j : Nat) (l : List SchemaVal) (b' : BObj) (h' : Heap),
      args (.inst r) h l = .ok (b', h') → j ≠ r →
      h'.recs.get? j = h.recs.get? j) ∧
    (∀ (h : Heap) (l : List SchemaVal) (b' : BObj) (h' : Heap),
      args .root h l = .ok (b', h') → b' = .inst h.recs.length) := by
  refine ⟨args_inst_ok, returns_inst_ok, ?_, ?_⟩
  · intro h r j l b' h' hok hne
    obtain ⟨_, rfl⟩ := args_inst_ok h r l b' h' hok
    exact setArgs_get?_ne h r j l (by omega)
  · intro h l b' h' hok
    exact (args_root_ok h l b' h' hok).1

/-- Witness for the amended C5 at the counterexample's inputs. -/
theorem c5_amended_in_place_mutation_witness :
    BObj.inst 0 = BObj.inst 0 ∧
    (⟨[⟨[okSchema], some okSchema⟩]⟩ : Heap) =
      Heap.setRet ⟨[⟨[okSchema], none⟩]⟩ 0 (some okSchema) := by
  have := c5_amended_in_place_mutation.2.1 ⟨[⟨[okSchema], none⟩]⟩ 0 (some okSchema)
    (.inst 0) ⟨[⟨[okSchema], some okSchema⟩]⟩ rfl
  obtain ⟨h1, sv, hsv, hset⟩ := this
  refine ⟨h1, ?_⟩
  injection hsv with hsv2
  rw [hset, hsv2]

/--
Counterexample to C4: a callable materialized from a builder that already
holds schema state is not bound to a frozen snapshot.  Concretely, with
b = zfn.args(okSchema) and f = b.create(implHead), invoking f succeeds;
after the later call b.args(rejectSchema) on the same builder, the same
callable f now rejects the same invocation, so the later args call changed
f's argument-validation behavior.
-/
theorem c4_counterexample :
    args .root h0 [okSchema] = .ok (.inst 0, ⟨[⟨[okSchema], none⟩]⟩) ∧
    create (.inst 0) ⟨[⟨[okSchema], none⟩]⟩ (.fn implHead) =
      .ok (0, initOptions implHead, ⟨[⟨[okSchema], none⟩]⟩) ∧
    (invoke 0 ⟨[⟨[okSchema], none⟩]⟩ (initOptions implHead) [.num 7]).out =
      .value (.num 7) ∧
    args (.inst 0) ⟨[⟨[okSchema], none⟩]⟩ [rejectSchema] =
      .ok (.inst 0, ⟨[⟨[rejectSchema], none⟩]⟩) ∧
    (invoke 0 ⟨[⟨[rejectSchema], none⟩]⟩ (initOptions implHead) [.num 7]).out =
      .thrown (.zodfn "always fails") :=
  ⟨rfl, rfl, rfl, rfl, rfl⟩

/--
C4 as amended: a materialized callable is bound by reference to the schema
record of the builder instance it was created from (a fresh empty record
when created directly from the root), and reads that record live at each
invocation: its behavior is a function of the record's current contents, a
later args or returns call on that same builder instance changes it, while
configuration calls on the root or on any other builder instance leave the
callable's record, and hence its behavior, unchanged.
-/
theorem c4_amended_live_schema_record :
    (∀ (ref : Nat) (h1 h2 : Heap) (opts : Options) (vs : List JSVal),
      h1.recs.get? ref = h2.recs.get? ref →
      invoke ref h1 opts vs = invoke ref h2 opts vs ∧
      invokeAsync ref h1 opts vs = invokeAsync ref h2 opts vs) ∧
    (∀ (ref : Nat) (h : Heap) (l : List SchemaVal) (b' : BObj) (h' : Heap),
      args .root h l = .ok (b', h') → ref < h.recs.length →
      h'.recs.get? ref = h.recs.get? ref) ∧
    (∀ (ref r : Nat) (h : Heap) (l : List SchemaVal) (b' : BObj) (h' : Heap),
      args (.inst r) h l = .ok (b', h') → ref ≠ r →
      h'.recs.get? ref = h.recs.get? ref) ∧
    (∀ (ref r : Nat) (h : Heap) (s : Option SchemaVal) (b' : BObj) (h' : Heap),
      returns (.inst r) h s = .ok (b', h') → ref ≠ r →
      h'.recs.get? ref = h.recs.get? ref) := by
  refine ⟨?_, ?_, ?_, ?_⟩
  · intro ref h1 h2 opts vs heq
    unfold invoke invokeAsync
    rw [heq]
    exact ⟨rfl, rfl⟩
  · intro ref h l b' h' hok hlt
    exact (args_root_ok h l b' h' hok).2 ref hlt
  · intro ref r h l b' h' hok hne
    obtain ⟨_, rfl⟩ := args_inst_ok h r l b' h' hok
    exact setArgs_get?_ne h r ref l (by omega)
  · intro ref r h s b' h' hok hne
    obtain ⟨_, sv, _, rfl⟩ := returns_inst_ok h r s b' h' hok
    exact setRet_get?_ne h r ref (some sv) (by omega)

/-- Witness for the amended C4: a second chain started from the root leaves
the record of the callable bound to instance 0 unchanged, so the callable's
behavior is unchanged. -/
theorem c4_amended_live_schema_record_witness :
    (⟨[⟨[okSchema], none⟩, ⟨[rejectSchema], none⟩]⟩ : Heap).recs.get? 0 =
      (⟨[⟨[okSchema], none⟩]⟩ : Heap).recs.get? 0 ∧
    invoke 0 ⟨[⟨[okSchema], none⟩, ⟨[rejectSchema], none⟩]⟩ (initOptions implHead) [.num 7] =
      invoke 0 ⟨[⟨[okSchema], none⟩]⟩ (initOptions implHead) [.num 7] := by
  have hpre := c4_amended_live_schema_record.2.1 0 ⟨[⟨[okSchema], none⟩]⟩ [rejectSchema]
    (.inst 1) ⟨[⟨[okSchema], none⟩, ⟨[rejectSchema], none⟩]⟩ rfl (by simp)
  refine ⟨hpre, ?_⟩
  exact (c4_amended_live_schema_record.1 0 ⟨[⟨[okSchema], none⟩, ⟨[rejectSchema], none⟩]⟩
    ⟨[⟨[okSchema], none⟩]⟩ (initOptions implHead) [.num 7] hpre).1

theorem syncFinish_trace_shape (rS : Option SchemaVal) (o : Options)
    (pa : List JSVal) (ret : JSVal) (tr : List Ev) :
    ∃ t, (syncFinish rS o pa ret tr).trace = tr ++ t ∧
      (∀ e xs, Ev.onErrCalled e xs ∉ t) ∧ (∀ e, Ev.implFailed e ∉ t) := by
  unfold syncFinish
  cases hrv : returnValidation ret rS false with
  | error e => exact ⟨[.retValFailed e], rfl, by simp, by simp⟩
  | ok r2 =>
    cases hspy : o.spyFn pa r2 (o.spyFnCount + 1) with
    | thrown e =>
      exact ⟨[.retValidated r2, .spyCalled pa r2 (o.spyFnCount + 1)], by simp [hspy], by simp, by simp⟩
    | promise ps =>
      exact ⟨[.retValidated r2, .spyCalled pa r2 (o.spyFnCount + 1), .rejectionDiscarded],
        by simp [hspy], by simp, by simp⟩
    | value v =>
      exact ⟨[.retValidated r2, .spyCalled pa r2 (o.spyFnCount + 1)], by simp [hspy], by simp, by simp⟩

theorem syncTailFinish_trace_shape (rS : Option SchemaVal) (o : Options)
    (pa : List JSVal) (ret : JSVal) (tr : List Ev) :
    ∃ t, (syncTailFinish rS o pa ret tr).2.2 = tr ++ t ∧
      (∀ e xs, Ev.onErrCalled e xs ∉ t) ∧ (∀ e, Ev.implFailed e ∉ t) := by
  unfold syncTailFinish
  cases hrv : returnValidation ret rS false with
  | error e => exact ⟨[.retValFailed e], rfl, by simp, by simp⟩
  | ok r2 =>
    cases hspy : o.spyFn pa r2 (o.spyFnCount + 1) with
    | thrown e =>
      exact ⟨[.retValidated r2, .spyCalled pa r2 (o.spyFnCount + 1)], by simp [hspy], by simp, by simp⟩
    | promise ps =>
      cases ps with
      | ok v =>
        exact ⟨[.retValidated r2, .spyCalled pa r2 (o.spyFnCount + 1)], by simp [hspy], by simp, by simp⟩
      | error e =>
        exact ⟨[.retValidated r2, .spyCalled pa r2 (o.spyFnCount + 1)], by simp [hspy], by simp, by simp⟩
    | value v =>
      exact ⟨[.retValidated r2, .spyCalled pa r2 (o.spyFnCount + 1)], by simp [hspy], by simp, by simp⟩

theorem asyncFinish_trace_shape (rS : Option SchemaVal) (o : Options)
    (pa : List JSVal) (ret : JSVal) (tr : List Ev) :
    ∃ t, (asyncFinish rS o pa ret tr).trace = tr ++ t ∧
      (∀ e xs, Ev.onErrCalled e xs ∉ t) ∧ (∀ e, Ev.implFailed e ∉ t) := by
  unfold asyncFinish
  cases hrv : returnValidation ret rS true with
  | error e => exact ⟨[.retValFailed e], rfl, by simp, by simp⟩
  | ok r2 =>
    cases hspy : o.spyFn pa r2 (o.spyFnCount + 1) with
    | thrown e =>
      exact ⟨[.retValidated r2, .spyCalled pa r2 (o.spyFnCount + 1)], by simp [hspy], by simp, by simp⟩
    | promise ps =>
      cases ps with
      | ok v =>
        exact ⟨[.retValidated r2, .spyCalled pa r2 (o.spyFnCount + 1)], by simp [hspy], by simp, by simp⟩
      | error e =>
        exact ⟨[.retValidated r2, .spyCalled pa r2 (o.spyFnCount + 1)], by simp [hspy], by simp, by simp⟩
    | value v =>
      exact ⟨[.retValidated r2, .spyCalled pa r2 (o.spyFnCount + 1)], by simp [hspy], by simp, by simp⟩

theorem syncFinish_retValFailed (rS : Option SchemaVal) (o : Options)
    (pa : List JSVal) (ret : JSVal) (tr : List Ev) (e : JErr)
    (hnotin : Ev.retValFailed e ∉ tr)
    (hmem : Ev.retValFailed e ∈ (syncFinish rS o pa ret tr).trace) :
    returnValidation ret rS false = .error e ∧
      syncFinish rS o pa ret tr = ⟨.thrown e, o, tr ++ [.retValFailed e]⟩ := by
  unfold syncFinish at hmem ⊢
  cases hrv : returnValidation ret rS false with
  | error e2 =>
    rw [hrv] at hmem
    simp only [SyncRes.mk.injEq, List.mem_append, List.mem_singleton] at hmem
    rcases hmem with hmem | hmem
    · exact absurd hmem hnotin
    · injection hmem with he
      subst he
      exact ⟨rfl, rfl⟩
  | ok r2 =>
    rw [hrv] at hmem
    dsimp only at hmem
    exfalso
    cases hspy : o.spyFn pa r2 (o.spyFnCount + 1) <;> rw [hspy] at hmem <;>
      simp at hmem <;> exact absurd (by tauto) hnotin

theorem syncTailFinish_retValFailed (rS : Option SchemaVal) (o : Options)
    (pa : List JSVal) (ret : JSVal) (tr : List Ev) (e : JErr)
    (hnotin : Ev.retValFailed e ∉ tr)
    (hmem : Ev.retValFailed e ∈ (syncTailFinish rS o pa ret tr).2.2) :
    returnValidation ret rS false = .error e ∧
      syncTailFinish rS o pa ret tr = (.error e, o, tr ++ [.retValFailed e]) := by
  unfold syncTailFinish at hmem ⊢
  cases hrv : returnValidation ret rS false with
  | error e2 =>
    rw [hrv] at hmem
    simp only [List.mem_append, List.mem_singleton] at hmem
    rcases hmem with hmem | hmem
    · exact absurd hmem hnotin
    · injection hmem with he
      subst he
      exact ⟨rfl, rfl⟩
  | ok r2 =>
    rw [hrv] at hmem
    dsimp only at hmem
    exfalso
    cases hspy : o.spyFn pa r2 (o.spyFnCount + 1) with
    | thrown e2 => rw [hspy] at hmem; simp at hmem; exact absurd (by tauto) hnotin
    | value v => rw [hspy] at hmem; simp at hmem; exact absurd (by tauto) hnotin
    | promise ps =>
      cases ps <;> rw [hspy] at hmem <;> simp at hmem <;> exact absurd (by tauto) hnotin

theorem asyncFinish_retValFailed (rS : Option SchemaVal) (o : Options)
    (pa : List JSVal) (ret : JSVal) (tr : List Ev) (e : JErr)
    (hnotin : Ev.retValFailed e ∉ tr)
    (hmem : Ev.retValFailed e ∈ (asyncFinish rS o pa ret tr).trace) :
    returnValidation ret rS true = .error e ∧
      asyncFinish rS o pa ret tr = ⟨.error e, o, tr ++ [.retValFailed e]⟩ := by
  unfold asyncFinish at hmem ⊢
  cases hrv : returnValidation ret rS true with
  | error e2 =>
    rw [hrv] at hmem
    simp only [List.mem_append, List.mem_singleton] at hmem
    rcases hmem with hmem | hmem
    · exact absurd hmem hnotin
    · injection hmem with he
      subst he
      exact ⟨rfl, rfl⟩
  | ok r2 =>
    rw [hrv] at hmem
    dsimp only at hmem
    exfalso
    cases hspy : o.spyFn pa r2 (o.spyFnCount + 1) with
    | thrown e2 => rw [hspy] at hmem; simp at hmem; exact absurd (by tauto) hnotin
    | value v => rw [hspy] at hmem; simp at hmem; exact absurd (by tauto) hnotin
    | promise ps =>
      cases ps <;> rw [hspy] at hmem <;> simp at hmem <;> exact absurd (by tauto) hnotin

theorem syncCall_retValFailed (aS : List SchemaVal) (rS : Option SchemaVal)
    (opts : Options) (vs : List JSVal) (e : JErr)
    (hmem : Ev.retValFailed e ∈ (syncCall aS rS opts vs).trace) :
    ((syncCall aS rS opts vs).out = .thrown e ∨
      (syncCall aS rS opts vs).out = .promise (.error e)) ∧
    ∃ t1, (syncCall aS rS opts vs).trace = t1 ++ [.retValFailed e] := by
  unfold syncCall at hmem ⊢
  cases hv : validateArgs aS false 0 vs with
  | error e2 =>
    rw [hv] at hmem
    simp at hmem
  | ok pa =>
    rw [hv] at hmem
    dsimp only at hmem ⊢
    cases hex : opts.execFn pa with
    | value ret =>
      rw [hex] at hmem
      dsimp only at hmem ⊢
      obtain ⟨hrv, heq⟩ := syncFinish_retValFailed rS opts pa ret [.implCalled pa] e
        (by simp) hmem
      rw [heq]
      exact ⟨Or.inl rfl, [.implCalled pa], rfl⟩
    | promise p =>
      rw [hex] at hmem
      dsimp only at hmem ⊢
      rcases List.mem_cons.mp hmem with hc | hc
      · cases hc
      · cases p with
        | ok ret =>
          dsimp only [syncAsyncTail] at hc ⊢
          obtain ⟨hrv, heq⟩ := syncTailFinish_retValFailed rS opts pa ret [] e
            (by simp) hc
          rw [heq]
          exact ⟨Or.inr rfl, [.implCalled pa], rfl⟩
        | error err =>
          dsimp only [syncAsyncTail] at hc ⊢
          cases hoe : opts.onErrorFn err pa with
          | thrown e2 =>
            rw [hoe] at hc
            simp at hc
          | value ret =>
            rw [hoe] at hc
            dsimp only at hc ⊢
            obtain ⟨hrv, heq⟩ := syncTailFinish_retValFailed rS opts pa ret
              [.implFailed err, .onErrCalled err pa] e (by simp) hc
            rw [heq]
            exact ⟨Or.inr rfl, .implCalled pa :: [.implFailed err, .onErrCalled err pa], rfl⟩
          | promise p2 =>
            rw [hoe] at hc
            dsimp only at hc ⊢
            cases p2 with
            | ok ret =>
              dsimp only at hc ⊢
              obtain ⟨hrv, heq⟩ := syncTailFinish_retValFailed rS opts pa ret
                [.implFailed err, .onErrCalled err pa] e (by simp) hc
              rw [heq]
              exact ⟨Or.inr rfl, .implCalled pa :: [.implFailed err, .onErrCalled err pa], rfl⟩
            | error e2 =>
              simp at hc
    | thrown err =>
      rw [hex] at hmem
      dsimp only at hmem ⊢
      cases hoe : opts.onErrorFn err pa with
      | thrown e2 =>
        rw [hoe] at hmem
        simp at hmem
      | promise p2 =>
        rw [hoe] at hmem
        simp at hmem
      | value ret =>
        rw [hoe] at hmem
        dsimp only at hmem ⊢
        obtain ⟨hrv, heq⟩ := syncFinish_retValFailed rS opts pa ret
          [.implCalled pa, .implFailed err, .onErrCalled err pa] e (by simp) hmem
        rw [heq]
        exact ⟨Or.inl rfl, [.implCalled pa, .implFailed err, .onErrCalled err pa], rfl⟩

theorem asyncCall_retValFailed (aS : List SchemaVal) (rS : Option SchemaVal)
    (opts : Options) (vs : List JSVal) (e : JErr)
    (hmem : Ev.retValFailed e ∈ (asyncCall aS rS opts vs).trace) :
    (asyncCall aS rS opts vs).out = .error e ∧
    ∃ t1, (asyncCall aS rS opts vs).trace = t1 ++ [.retValFailed e] := by
  unfold asyncCall at hmem ⊢
  cases hv : validateArgs aS true 0 vs with
  | error e2 =>
    rw [hv] at hmem
    simp at hmem
  | ok pa =>
    rw [hv] at hmem
    dsimp only at hmem ⊢
    cases hex : opts.execFn pa with
    | value v =>
      rw [hex] at hmem
      dsimp only at hmem ⊢
      obtain ⟨hrv, heq⟩ := asyncFinish_retValFailed rS opts pa v [.implCalled pa] e
        (by simp) hmem
      rw [heq]
      exact ⟨rfl, [.implCalled pa], rfl⟩
    | promise p =>
      rw [hex] at hmem
      dsimp only at hmem ⊢
      cases p with
      | ok ret =>
        dsimp only at hmem ⊢
        obtain ⟨hrv, heq⟩ := asyncFinish_retValFailed rS opts pa ret [.implCalled pa] e
          (by simp) hmem
        rw [heq]
        exact ⟨rfl, [.implCalled pa], rfl⟩
      | error err =>
        dsimp only at hmem ⊢
        cases hoe : opts.onErrorFn err pa with
        | thrown e2 =>
          rw [hoe] at hmem
          simp at hmem
        | value ret =>
          rw [hoe] at hmem
          dsimp only at hmem ⊢
          obtain ⟨hrv, heq⟩ := asyncFinish_retValFailed rS opts pa ret
            [.implCalled pa, .implFailed err, .onErrCalled err pa] e (by simp) hmem
          rw [heq]
          exact ⟨rfl, [.implCalled pa, .implFailed err, .onErrCalled err pa], rfl⟩
        | promise p2 =>
          rw [hoe] at hmem
          dsimp only at hmem ⊢
          cases p2 with
          | ok ret =>
            dsimp only at hmem ⊢
            obtain ⟨hrv, heq⟩ := asyncFinish_retValFailed rS opts pa ret
              [.implCalled pa, .implFailed err, .onErrCalled err pa] e (by simp) hmem
            rw [heq]
            exact ⟨rfl, [.implCalled pa, .implFailed err, .onErrCalled err pa], rfl⟩
          | error e2 =>
            simp at hmem
    | thrown err =>
      rw [hex] at hmem
      dsimp only at hmem ⊢
      cases hoe : opts.onErrorFn err pa with
      | thrown e2 =>
        rw [hoe] at hmem
        simp at hmem
      | value ret =>
        rw [hoe] at hmem
        dsimp only at hmem ⊢
        obtain ⟨hrv, heq⟩ := asyncFinish_retValFailed rS opts pa ret
          [.implCalled pa, .implFailed err, .onErrCalled err pa] e (by simp) hmem
        rw [heq]
        exact ⟨rfl, [.implCalled pa, .implFailed err, .onErrCalled err pa], rfl⟩
      | promise p2 =>
        rw [hoe] at hmem
        dsimp only at hmem ⊢
        cases p2 with
        | ok ret =>
          dsimp only at hmem ⊢
          obtain ⟨hrv, heq⟩ := asyncFinish_retValFailed rS opts pa ret
            [.implCalled pa, .implFailed err, .onErrCalled err pa] e (by simp) hmem
          rw [heq]
          exact ⟨rfl, [.implCalled pa, .implFailed err, .onErrCalled err pa], rfl⟩
        | error e2 =>
          simp at hmem

theorem syncCall_onErr_implFailed (aS : List SchemaVal) (rS : Option SchemaVal)
    (opts : Options) (vs : List JSVal) (e : JErr) (xs : List JSVal)
    (hmem : Ev.onErrCalled e xs ∈ (syncCall aS rS opts vs).trace) :
    Ev.implFailed e ∈ (syncCall aS rS opts vs).trace := by
  unfold syncCall at hmem ⊢
  cases hv : validateArgs aS false 0 vs with
  | error e2 =>
    rw [hv] at hmem
    simp at hmem
  | ok pa =>
    rw [hv] at hmem
    dsimp only at hmem ⊢
    cases hex : opts.execFn pa with
    | value ret =>
      rw [hex] at hmem
      dsimp only at hmem ⊢
      obtain ⟨t, htr, hnoe, _⟩ := syncFinish_trace_shape rS opts pa ret [.implCalled pa]
      rw [htr] at hmem
      rcases List.mem_append.mp hmem with hc | hc
      · simp at hc
      · exact absurd hc (hnoe e xs)
    | promise p =>
      rw [hex] at hmem
      dsimp only at hmem ⊢
      rcases List.mem_cons.mp hmem with hc | hc
      · cases hc
      · cases p with
        | ok ret =>
          dsimp only [syncAsyncTail] at hc ⊢
          obtain ⟨t, htr, hnoe, _⟩ := syncTailFinish_trace_shape rS opts pa ret []
          rw [htr] at hc
          rcases List.mem_append.mp hc with hc2 | hc2
          · simp at hc2
          · exact absurd hc2 (hnoe e xs)
        | error err =>
          dsimp only [syncAsyncTail] at hc ⊢
          cases hoe : opts.onErrorFn err pa with
          | thrown e2 =>
            rw [hoe] at hc
            simp at hc
            obtain ⟨he, _⟩ := hc
            subst he
            simp
          | value ret =>
            rw [hoe] at hc
            dsimp only at hc ⊢
            obtain ⟨t, htr, hnoe, _⟩ := syncTailFinish_trace_shape rS opts pa ret
              [.implFailed err, .onErrCalled err pa]
            rw [htr] at hc ⊢
            rcases List.mem_append.mp hc with hc2 | hc2
            · simp at hc2
              obtain ⟨he, _⟩ := hc2
              subst he
              simp
            · exact absurd hc2 (hnoe e xs)
          | promise p2 =>
            rw [hoe] at hc
            dsimp only at hc ⊢
            cases p2 with
            | ok ret =>
              dsimp only at hc ⊢
              obtain ⟨t, htr, hnoe, _⟩ := syncTailFinish_trace_shape rS opts pa ret
                [.implFailed err, .onErrCalled err pa]
              rw [htr] at hc ⊢
              rcases List.mem_append.mp hc with hc2 | hc2
              · simp at hc2
                obtain ⟨he, _⟩ := hc2
                subst he
                simp
              · exact absurd hc2 (hnoe e xs)
            | error e2 =>
              simp at hc
              obtain ⟨he, _⟩ := hc
              subst he
              simp
    | thrown err =>
      rw [hex] at hmem
      dsimp only at hmem ⊢
      cases hoe : opts.onErrorFn err pa with
      | thrown e2 =>
        rw [hoe] at hmem
        simp at hmem
        obtain ⟨he, _⟩ := hmem
        subst he
        simp
      | promise p2 =>
        rw [hoe] at hmem
        simp at hmem
        obtain ⟨he, _⟩ := hmem
        subst he
        simp
      | value ret =>
        rw [hoe] at hmem
        dsimp only at hmem ⊢
        obtain ⟨t, htr, hnoe, _⟩ := syncFinish_trace_shape rS opts pa ret
          [.implCalled pa, .implFailed err, .onErrCalled err pa]
        rw [htr] at hmem ⊢
        rcases List.mem_append.mp hmem with hc | hc
        · simp at hc
          obtain ⟨he, _⟩ := hc
          subst he
          simp
        · exact absurd hc (hnoe e xs)

theorem asyncCall_onErr_implFailed (aS : List SchemaVal) (rS : Option SchemaVal)
    (opts : Options) (vs : List JSVal) (e : JErr) (xs : List JSVal)
    (hmem : Ev.onErrCalled e xs ∈ (asyncCall aS rS opts vs).trace) :
    Ev.implFailed e ∈ (asyncCall aS rS opts vs).trace := by
  unfold asyncCall at hmem ⊢
  cases hv : validateArgs aS true 0 vs with
  | error e2 =>
    rw [hv] at hmem
    simp at hmem
  | ok pa =>
    rw [hv] at hmem
    dsimp only at hmem ⊢
    cases hex : opts.execFn pa with
    | value v =>
      rw [hex] at hmem
      dsimp only at hmem ⊢
      obtain ⟨t, htr, hnoe, _⟩ := asyncFinish_trace_shape rS opts pa v [.implCalled pa]
      rw [htr] at hmem
      rcases List.mem_append.mp hmem with hc | hc
      · simp at hc
      · exact absurd hc (hnoe e xs)
    | promise p =>
      rw [hex] at hmem
      dsimp only at hmem ⊢
      cases p with
      | ok ret =>
        dsimp only at hmem ⊢
        obtain ⟨t, htr, hnoe, _⟩ := asyncFinish_trace_shape rS opts pa ret [.implCalled pa]
        rw [htr] at hmem
        rcases List.mem_append.mp hmem with hc | hc
        · simp at hc
        · exact absurd hc (hnoe e xs)
      | error err =>
        dsimp only at hmem ⊢
        cases hoe : opts.onErrorFn err pa with
        | thrown e2 =>
          rw [hoe] at hmem
          simp at hmem
          obtain ⟨he, _⟩ := hmem
          subst he
          simp
        | value ret =>
          rw [hoe] at hmem
          dsimp only at hmem ⊢
          obtain ⟨t, htr, hnoe, _⟩ := asyncFinish_trace_shape rS opts pa ret
            [.implCalled pa, .implFailed err, .onErrCalled err pa]
          rw [htr] at hmem ⊢
          rcases List.mem_append.mp hmem with hc | hc
          · simp at hc
            obtain ⟨he, _⟩ := hc
            subst he
            simp
          · exact absurd hc (hnoe e xs)
        | promise p2 =>
          rw [hoe] at hmem
          dsimp only at hmem ⊢
          cases p2 with
          | ok ret =>
            dsimp only at hmem ⊢
            obtain ⟨t, htr, hnoe, _⟩ := asyncFinish_trace_shape rS opts pa ret
              [.implCalled pa, .implFailed err, .onErrCalled err pa]
            rw [htr] at hmem ⊢
            rcases List.mem_append.mp hmem with hc | hc
            · simp at hc
              obtain ⟨he, _⟩ := hc
              subst he
              simp
            · exact absurd hc (hnoe e xs)
          | error e2 =>
            simp at hmem
            obtain ⟨he, _⟩ := hmem
            subst he
            simp
    | thrown err =>
      rw [hex] at hmem
      dsimp only at hmem ⊢
      cases hoe : opts.onErrorFn err pa with
      | thrown e2 =>
        rw [hoe] at hmem
        simp at hmem
        obtain ⟨he, _⟩ := hmem
        subst he
        simp
      | value ret =>
        rw [hoe] at hmem
        dsimp only at hmem ⊢
        obtain ⟨t, htr, hnoe, _⟩ := asyncFinish_trace_shape rS opts pa ret
          [.implCalled pa, .implFailed err, .onErrCalled err pa]
        rw [htr] at hmem ⊢
        rcases List.mem_append.mp hmem with hc | hc
        · simp at hc
          obtain ⟨he, _⟩ := hc
          subst he
          simp
        · exact absurd hc (hnoe e xs)
      | promise p2 =>
        rw [hoe] at hmem
        dsimp only at hmem ⊢
        cases p2 with
        | ok ret =>
          dsimp only at hmem ⊢
          obtain ⟨t, htr, hnoe, _⟩ := asyncFinish_trace_shape rS opts pa ret
            [.implCalled pa, .implFailed err, .onErrCalled err pa]
          rw [htr] at hmem ⊢
          rcases List.mem_append.mp hmem with hc | hc
          · simp at hc
            obtain ⟨he, _⟩ := hc
            subst he
            simp
          · exact absurd hc (hnoe e xs)
        | error e2 =>
          simp at hmem
          obtain ⟨he, _⟩ := hmem
          subst he
          simp

/--
C1: for every materialized callable and every invocation, an
argument-validation failure propagates directly to the caller with the
implementation, the error handler and the spy never run (the trace is
empty); a return-validation failure likewise propagates directly (thrown
synchronously in the purely synchronous branch, as a rejected promise in
the asynchronous branches) and ends the invocation immediately, so the
handler is never invoked for it; and the error handler is invoked only
when the current implementation threw or rejected, with exactly that
error.
-/
theorem c1_validation_bypasses_onerror :
    (∀ (aS : List SchemaVal) (rS : Option SchemaVal) (opts : Options)
        (vs : List JSVal) (e : JErr),
      validateArgs aS false 0 vs = .error e →
      syncCall aS rS opts vs = ⟨.thrown e, opts, []⟩) ∧
    (∀ (aS : List SchemaVal) (rS : Option SchemaVal) (opts : Options)
        (vs : List JSVal) (e : JErr),
      validateArgs aS true 0 vs = .error e →
      asyncCall aS rS opts vs = ⟨.error e, opts, []⟩) ∧
    (∀ (aS : List SchemaVal) (rS : Option SchemaVal) (opts : Options)
        (vs : List JSVal) (e : JErr),
      Ev.retValFailed e ∈ (syncCall aS rS opts vs).trace →
      ((syncCall aS rS opts vs).out = .thrown e ∨
        (syncCall aS rS opts vs).out = .promise (.error e)) ∧
      ∃ t1, (syncCall aS rS opts vs).trace = t1 ++ [.retValFailed e]) ∧
    (∀ (aS : List SchemaVal) (rS : Option SchemaVal) (opts : Options)
        (vs : List JSVal) (e : JErr),
      Ev.retValFailed e ∈ (asyncCall aS rS opts vs).trace →
      (asyncCall aS rS opts vs).out = .error e ∧
      ∃ t1, (asyncCall aS rS opts vs).trace = t1 ++ [.retValFailed e]) ∧
    (∀ (aS : List SchemaVal) (rS : Option SchemaVal) (opts : Options)
        (vs : List JSVal) (e : JErr) (xs : List JSVal),
      Ev.onErrCalled e xs ∈ (syncCall aS rS opts vs).trace →
      Ev.implFailed e ∈ (syncCall aS rS opts vs).trace) ∧
    (∀ (aS : List SchemaVal) (rS : Option SchemaVal) (opts : Options)
        (vs : List JSVal) (e : JErr) (xs : List JSVal),
      Ev.onErrCalled e xs ∈ (asyncCall aS rS opts vs).trace →
      Ev.implFailed e ∈ (asyncCall aS rS opts vs).trace) := by
  refine ⟨?_, ?_, syncCall_retValFailed, asyncCall_retValFailed,
    syncCall_onErr_implFailed, asyncCall_onErr_implFailed⟩
  · intro aS rS opts vs e h
    unfold syncCall
    rw [h]
  · intro aS rS opts vs e h
    unfold asyncCall
    rw [h]

/-- Witness for C1: an argument-validation failure under create propagates
as the thrown ZodFnError with nothing else happening, and the same failure
under createAsync is the rejection of the returned promise. -/
theorem c1_validation_bypasses_onerror_witness :
    syncCall [rejectSchema] none (initOptions implHead) [.num 7] =
      ⟨.thrown (.zodfn "always fails"), initOptions implHead, []⟩ ∧
    asyncCall [rejectSchema] none (initOptions implHead) [.num 7] =
      ⟨.error (.zodfn "always fails"), initOptions implHead, []⟩ :=
  ⟨c1_validation_bypasses_onerror.1 [rejectSchema] none (initOptions implHead)
      [.num 7] (.zodfn "always fails") rfl,
    c1_validation_bypasses_onerror.2.1 [rejectSchema] none (initOptions implHead)
      [.num 7] (.zodfn "always fails") rfl⟩

/--
C2: under create, when the implementation throws synchronously and the
installed error handler returns a promise, the call throws the ZodFnError
with exactly the message onError handler function cannot return a promise
in a synchronous context (it neither hangs nor resolves), after attaching
a rejection handler to the leaked promise so its eventual rejection is
silently discarded (the rejectionDiscarded event).
-/
theorem c2_sync_onerror_promise_fatal (aS : List SchemaVal) (rS : Option SchemaVal)
    (opts : Options) (vs : List JSVal) (parsedArgs : List JSVal) (err : JErr)
    (p : Except JErr JSVal)
    (h1 : validateArgs aS false 0 vs = .ok parsedArgs)
    (h2 : opts.execFn parsedArgs = .thrown err)
    (h3 : opts.onErrorFn err parsedArgs = .promise p) :
    syncCall aS rS opts vs =
      ⟨.thrown (.zodfn onErrPromiseMsg), opts,
        [.implCalled parsedArgs, .implFailed err, .onErrCalled err parsedArgs,
          .rejectionDiscarded]⟩ ∧
    onErrPromiseMsg =
      "onError handler function cannot return a promise in a synchronous context" := by
  constructor
  · unfold syncCall
    rw [h1]
    dsimp only
    rw [h2]
    dsimp only
    rw [h3]
    rfl
  · rfl

/-- Options record of the C2 witness: a throwing implementation and an
error handler that returns a promise. -/
def optsC2 : Options :=
  { execFn := implThrow, spyFn := noopSpy, spyFnCount := 0,
    onErrorFn := fun _ _ => .promise (.error (.other (.str "late"))) }

/-- Witness for C2 at concrete inputs. -/
theorem c2_sync_onerror_promise_fatal_witness :
    syncCall [] none optsC2 [] =
      ⟨.thrown (.zodfn onErrPromiseMsg), optsC2,
        [.implCalled [], .implFailed (.other (.str "boom")),
          .onErrCalled (.other (.str "boom")) [], .rejectionDiscarded]⟩ :=
  (c2_sync_onerror_promise_fatal [] none optsC2 [] [] (.other (.str "boom"))
    (.error (.other (.str "late"))) rfl rfl rfl).1

theorem syncFinish_value (rS : Option SchemaVal) (o : Options) (pa : List JSVal)
    (ret : JSVal) (tr : List Ev) (v : JSVal)
    (h : (syncFinish rS o pa ret tr).out = .value v) :
    (syncFinish rS o pa ret tr).opts.spyFnCount = o.spyFnCount + 1 ∧
    Ev.spyCalled pa v (o.spyFnCount + 1) ∈ (syncFinish rS o pa ret tr).trace := by
  unfold syncFinish at h ⊢
  cases hrv : returnValidation ret rS false with
  | error e =>
    rw [hrv] at h
    cases h
  | ok r2 =>
    rw [hrv] at h
    dsimp only at h ⊢
    cases hspy : o.spyFn pa r2 (o.spyFnCount + 1) with
    | thrown e =>
      rw [hspy] at h
      cases h
    | promise ps =>
      rw [hspy] at h
      cases h
    | value w =>
      rw [hspy] at h
      injection h with hv
      subst hv
      exact ⟨rfl, by simp⟩

theorem syncTailFinish_ok (rS : Option SchemaVal) (o : Options) (pa : List JSVal)
    (ret : JSVal) (tr : List Ev) (v : JSVal)
    (h : (syncTailFinish rS o pa ret tr).1 = .ok v) :
    (syncTailFinish rS o pa ret tr).2.1.spyFnCount = o.spyFnCount + 1 ∧
    Ev.spyCalled pa v (o.spyFnCount + 1) ∈ (syncTailFinish rS o pa ret tr).2.2 := by
  unfold syncTailFinish at h ⊢
  cases hrv : returnValidation ret rS false with
  | error e =>
    rw [hrv] at h
    cases h
  | ok r2 =>
    rw [hrv] at h
    dsimp only at h ⊢
    cases hspy : o.spyFn pa r2 (o.spyFnCount + 1) with
    | thrown e =>
      rw [hspy] at h
      cases h
    | promise ps =>
      rw [hspy] at h
      cases ps with
      | ok w =>
        injection h with hv
        subst hv
        exact ⟨rfl, by simp⟩
      | error e =>
        cases h
    | value w =>
      rw [hspy] at h
      injection h with hv
      subst hv
      exact ⟨rfl, by simp⟩

theorem asyncFinish_ok (rS : Option SchemaVal) (o : Options) (pa : List JSVal)
    (ret : JSVal) (tr : List Ev) (v : JSVal)
    (h : (asyncFinish rS o pa ret tr).out = .ok v) :
    (asyncFinish rS o pa ret tr).opts.spyFnCount = o.spyFnCount + 1 ∧
    Ev.spyCalled pa v (o.spyFnCount + 1) ∈ (asyncFinish rS o pa ret tr).trace := by
  unfold asyncFinish at h ⊢
  cases hrv : returnValidation ret rS true with
  | error e =>
    rw [hrv] at h
    cases h
  | ok r2 =>
    rw [hrv] at h
    dsimp only at h ⊢
    cases hspy : o.spyFn pa r2 (o.spyFnCount + 1) with
    | thrown e =>
      rw [hspy] at h
      cases h
    | promise ps =>
      rw [hspy] at h
      cases ps with
      | ok w =>
        injection h with hv
        subst hv
        exact ⟨rfl, by simp⟩
      | error e =>
        cases h
    | value w =>
      rw [hspy] at h
      injection h with hv
      subst hv
      exact ⟨rfl, by simp⟩

theorem syncCall_value_spy (aS : List SchemaVal) (rS : Option SchemaVal)
    (opts : Options) (vs : List JSVal) (v : JSVal)
    (h : (syncCall aS rS opts vs).out = .value v) :
    (syncCall aS rS opts vs).opts.spyFnCount = opts.spyFnCount + 1 ∧
    ∃ pa, Ev.spyCalled pa v (opts.spyFnCount + 1) ∈ (syncCall aS rS opts vs).trace := by
  unfold syncCall at h ⊢
  cases hv : validateArgs aS false 0 vs with
  | error e =>
    rw [hv] at h
    cases h
  | ok pa =>
    rw [hv] at h
    dsimp only at h ⊢
    cases hex : opts.execFn pa with
    | value ret =>
      rw [hex] at h
      obtain ⟨hc, hm⟩ := syncFinish_value rS opts pa ret [.implCalled pa] v h
      exact ⟨hc, pa, hm⟩
    | promise p =>
      rw [hex] at h
      cases h
    | thrown err =>
      rw [hex] at h
      dsimp only at h ⊢
      cases hoe : opts.onErrorFn err pa with
      | thrown e2 =>
        rw [hoe] at h
        cases h
      | promise p2 =>
        rw [hoe] at h
        cases h
      | value ret =>
        rw [hoe] at h
        obtain ⟨hc, hm⟩ := syncFinish_value rS opts pa ret
          [.implCalled pa, .implFailed err, .onErrCalled err pa] v h
        exact ⟨hc, pa, hm⟩

theorem syncFinish_out_not_promise (rS : Option SchemaVal) (o : Options)
    (pa : List JSVal) (ret : JSVal) (tr : List Ev) (q : Except JErr JSVal) :
    (syncFinish rS o pa ret tr).out ≠ .promise q := by
  unfold syncFinish
  cases hrv : returnValidation ret rS false with
  | error e => simp
  | ok r2 =>
    dsimp only
    cases hspy : o.spyFn pa r2 (o.spyFnCount + 1) <;> simp

theorem syncCall_promise_ok_spy (aS : List SchemaVal) (rS : Option SchemaVal)
    (opts : Options) (vs : List JSVal) (v : JSVal)
    (h : (syncCall aS rS opts vs).out = .promise (.ok v)) :
    (syncCall aS rS opts vs).opts.spyFnCount = opts.spyFnCount + 1 ∧
    ∃ pa, Ev.spyCalled pa v (opts.spyFnCount + 1) ∈ (syncCall aS rS opts vs).trace := by
  unfold syncCall at h ⊢
  cases hv : validateArgs aS false 0 vs with
  | error e =>
    rw [hv] at h
    cases h
  | ok pa =>
    rw [hv] at h
    dsimp only at h ⊢
    cases hex : opts.execFn pa with
    | value ret =>
      rw [hex] at h
      dsimp only at h
      exact absurd h (syncFinish_out_not_promise rS opts pa ret [.implCalled pa] (.ok v))
    | thrown err =>
      rw [hex] at h
      dsimp only at h ⊢
      cases hoe : opts.onErrorFn err pa with
      | thrown e2 =>
        rw [hoe] at h
        cases h
      | promise p2 =>
        rw [hoe] at h
        cases h
      | value ret =>
        rw [hoe] at h
        exact absurd h (syncFinish_out_not_promise rS opts pa ret
          [.implCalled pa, .implFailed err, .onErrCalled err pa] (.ok v))
    | promise p =>
      rw [hex] at h
      dsimp only at h ⊢
      injection h with hp
      cases p with
      | ok ret =>
        dsimp only [syncAsyncTail] at hp ⊢
        obtain ⟨hc, hm⟩ := syncTailFinish_ok rS opts pa ret [] v hp
        exact ⟨hc, pa, List.mem_cons_of_mem _ hm⟩
      | error err =>
        dsimp only [syncAsyncTail] at hp ⊢
        cases hoe : opts.onErrorFn err pa with
        | thrown e2 =>
          rw [hoe] at hp
          cases hp
        | value ret =>
          rw [hoe] at hp
          dsimp only at hp ⊢
          obtain ⟨hc, hm⟩ := syncTailFinish_ok rS opts pa ret
            [.implFailed err, .onErrCalled err pa] v hp
          exact ⟨hc, pa, List.mem_cons_of_mem _ hm⟩
        | promise p2 =>
          rw [hoe] at hp
          dsimp only at hp ⊢
          cases p2 with
          | ok ret =>
            dsimp only at hp ⊢
            obtain ⟨hc, hm⟩ := syncTailFinish_ok rS opts pa ret
              [.implFailed err, .onErrCalled err pa] v hp
            exact ⟨hc, pa, List.mem_cons_of_mem _ hm⟩
          | error e2 =>
            cases hp

theorem asyncCall_ok_spy (aS : List SchemaVal) (rS : Option SchemaVal)
    (opts : Options) (vs : List JSVal) (v : JSVal)
    (h : (asyncCall aS rS opts vs).out = .ok v) :
    (asyncCall aS rS opts vs).opts.spyFnCount = opts.spyFnCount + 1 ∧
    ∃ pa, Ev.spyCalled pa v (opts.spyFnCount + 1) ∈ (asyncCall aS rS opts vs).trace := by
  unfold asyncCall at h ⊢
  cases hv : validateArgs aS true 0 vs with
  | error e =>
    rw [hv] at h
    cases h
  | ok pa =>
    rw [hv] at h
    dsimp only at h ⊢
    cases hex : opts.execFn pa with
    | value w =>
      rw [hex] at h
      dsimp only at h ⊢
      obtain ⟨hc, hm⟩ := asyncFinish_ok rS opts pa w [.implCalled pa] v h
      exact ⟨hc, pa, hm⟩
    | promise p =>
      rw [hex] at h
      dsimp only at h ⊢
      cases p with
      | ok ret =>
        dsimp only at h ⊢
        obtain ⟨hc, hm⟩ := asyncFinish_ok rS opts pa ret [.implCalled pa] v h
        exact ⟨hc, pa, hm⟩
      | error err =>
        dsimp only at h ⊢
        cases hoe : opts.onErrorFn err pa with
        | thrown e2 =>
          rw [hoe] at h
          cases h
        | value ret =>
          rw [hoe] at h
          dsimp only at h ⊢
          obtain ⟨hc, hm⟩ := asyncFinish_ok rS opts pa ret
            [.implCalled pa, .implFailed err, .onErrCalled err pa] v h
          exact ⟨hc, pa, hm⟩
        | promise p2 =>
          rw [hoe] at h
          dsimp only at h ⊢
          cases p2 with
          | ok ret =>
            dsimp only at h ⊢
            obtain ⟨hc, hm⟩ := asyncFinish_ok rS opts pa ret
              [.implCalled pa, .implFailed err, .onErrCalled err pa] v h
            exact ⟨hc, pa, hm⟩
          | error e2 =>
            cases h
    | thrown err =>
      rw [hex] at h
      dsimp only at h ⊢
      cases hoe : opts.onErrorFn err pa with
      | thrown e2 =>
        rw [hoe] at h
        cases h
      | value ret =>
        rw [hoe] at h
        dsimp only at h ⊢
        obtain ⟨hc, hm⟩ := asyncFinish_ok rS opts pa ret
          [.implCalled pa, .implFailed err, .onErrCalled err pa] v h
        exact ⟨hc, pa, hm⟩
      | promise p2 =>
        rw [hoe] at h
        dsimp only at h ⊢
        cases p2 with
        | ok ret =>
          dsimp only at h ⊢
          obtain ⟨hc, hm⟩ := asyncFinish_ok rS opts pa ret
            [.implCalled pa, .implFailed err, .onErrCalled err pa] v h
          exact ⟨hc, pa, hm⟩
        | error e2 =>
          cases h

/--
C8: installing a spy with a callable argument replaces the spy function and
resets the counter to 0; every successful invocation (plain value from
create, resolved promise from create's asynchronous branch, or resolution
from createAsync) increments the counter by exactly 1 before the spy runs
and passes the incremented 1-based counter as the spy's third argument;
resetSpy restores the no-op spy with the counter at 0, so a spy installed
afterwards observes counts starting again at 1.
-/
theorem c8_spy_counter :
    (∀ (opts : Options) (f : List JSVal → JSVal → Nat → CallOut),
      spy opts (.fn f) = .ok { opts with spyFnCount := 0, spyFn := f }) ∧
    (∀ opts : Options, resetSpy opts = { opts with spyFnCount := 0, spyFn := noopSpy }) ∧
    (∀ (aS : List SchemaVal) (rS : Option SchemaVal) (opts : Options)
        (vs : List JSVal) (v : JSVal),
      (syncCall aS rS opts vs).out = .value v →
      (syncCall aS rS opts vs).opts.spyFnCount = opts.spyFnCount + 1 ∧
      ∃ pa, Ev.spyCalled pa v (opts.spyFnCount + 1) ∈ (syncCall aS rS opts vs).trace) ∧
    (∀ (aS : List SchemaVal) (rS : Option SchemaVal) (opts : Options)
        (vs : List JSVal) (v : JSVal),
      (syncCall aS rS opts vs).out = .promise (.ok v) →
      (syncCall aS rS opts vs).opts.spyFnCount = opts.spyFnCount + 1 ∧
      ∃ pa, Ev.spyCalled pa v (opts.spyFnCount + 1) ∈ (syncCall aS rS opts vs).trace) ∧
    (∀ (aS : List SchemaVal) (rS : Option SchemaVal) (opts : Options)
        (vs : List JSVal) (v : JSVal),
      (asyncCall aS rS opts vs).out = .ok v →
      (asyncCall aS rS opts vs).opts.spyFnCount = opts.spyFnCount + 1 ∧
      ∃ pa, Ev.spyCalled pa v (opts.spyFnCount + 1) ∈ (asyncCall aS rS opts vs).trace) ∧
    (∀ (opts : Options) (g : List JSVal → JSVal → Nat → CallOut) (o3 : Options)
        (aS : List SchemaVal) (rS : Option SchemaVal) (vs : List JSVal) (v : JSVal),
      spy (resetSpy opts) (.fn g) = .ok o3 →
      (syncCall aS rS o3 vs).out = .value v →
      ∃ pa, Ev.spyCalled pa v 1 ∈ (syncCall aS rS o3 vs).trace) := by
  refine ⟨fun _ _ => rfl, fun _ => rfl, syncCall_value_spy, syncCall_promise_ok_spy,
    asyncCall_ok_spy, ?_⟩
  intro opts g o3 aS rS vs v hspy hout
  have ho3 : o3 = { resetSpy opts with spyFnCount := 0, spyFn := g } := by
    simp only [spy] at hspy
    injection hspy with h2
    exact h2.symm
  subst ho3
  exact (syncCall_value_spy aS rS _ vs v hout).2

/-- A distinguished spy used by the C8 witness. -/
def spyProbe : List JSVal → JSVal → Nat → CallOut := fun _ _ _ => .value (.num 0)

/-- Witness for C8: installing a spy resets the counter, a successful call
reports count 1, and after resetSpy plus a fresh spy, counting restarts at
1. -/
theorem c8_spy_counter_witness :
    spy (initOptions implHead) (.fn spyProbe) =
      .ok { initOptions implHead with spyFnCount := 0, spyFn := spyProbe } ∧
    resetSpy (initOptions implHead) =
      { initOptions implHead with spyFnCount := 0, spyFn := noopSpy } ∧
    ((syncCall [] none (initOptions implHead) [.num 7]).opts.spyFnCount = 1 ∧
      ∃ pa, Ev.spyCalled pa (.num 7) 1 ∈
        (syncCall [] none (initOptions implHead) [.num 7]).trace) ∧
    (∃ pa, Ev.spyCalled pa (.num 7) 1 ∈
      (syncCall [] none
        { resetSpy (initOptions implHead) with spyFnCount := 0, spyFn := spyProbe }
        [.num 7]).trace) :=
  ⟨c8_spy_counter.1 (initOptions implHead) spyProbe,
    c8_spy_counter.2.1 (initOptions implHead),
    c8_spy_counter.2.2.1 [] none (initOptions implHead) [.num 7] (.num 7) rfl,
    c8_spy_counter.2.2.2.2.2 (initOptions implHead) spyProbe
      { resetSpy (initOptions implHead) with spyFnCount := 0, spyFn := spyProbe }
      [] none [.num 7] (.num 7) rfl rfl⟩

theorem syncFinish_spyCalled (rS : Option SchemaVal) (o : Options) (pa : List JSVal)
    (ret : JSVal) (tr : List Ev) (a : List JSVal) (r : JSVal) (n : Nat)
    (hnotin : Ev.spyCalled a r n ∉ tr)
    (hmem : Ev.spyCalled a r n ∈ (syncFinish rS o pa ret tr).trace) :
    returnValidation ret rS false = .ok r ∧ a = pa ∧ n = o.spyFnCount + 1 ∧
    ∃ t2, (syncFinish rS o pa ret tr).trace =
        tr ++ Ev.retValidated r :: Ev.spyCalled a r n :: t2 ∧
      (t2 = [] ∨ t2 = [Ev.rejectionDiscarded]) := by
  unfold syncFinish at hmem ⊢
  cases hrv : returnValidation ret rS false with
  | error e =>
    rw [hrv] at hmem
    simp at hmem
    exact absurd hmem hnotin
  | ok r2 =>
    rw [hrv] at hmem
    dsimp only at hmem ⊢
    cases hspy : o.spyFn pa r2 (o.spyFnCount + 1) with
    | thrown e =>
      rw [hspy] at hmem
      rcases List.mem_append.mp hmem with hc | hc
      · exact absurd hc hnotin
      · simp at hc
        obtain ⟨ha, hr, hn⟩ := hc
        refine ⟨by rw [hr], ha, hn, [], ?_, Or.inl rfl⟩
        rw [ha, hr, hn]
    | promise ps =>
      rw [hspy] at hmem
      rcases List.mem_append.mp hmem with hc | hc
      · rcases List.mem_append.mp hc with hc2 | hc2
        · exact absurd hc2 hnotin
        · simp at hc2
          obtain ⟨ha, hr, hn⟩ := hc2
          refine ⟨by rw [hr], ha, hn, [Ev.rejectionDiscarded], ?_, Or.inr rfl⟩
          rw [ha, hr, hn]
          simp
      · simp at hc
    | value w =>
      rw [hspy] at hmem
      rcases List.mem_append.mp hmem with hc | hc
      · exact absurd hc hnotin
      · simp at hc
        obtain ⟨ha, hr, hn⟩ := hc
        refine ⟨by rw [hr], ha, hn, [], ?_, Or.inl rfl⟩
        rw [ha, hr, hn]

theorem syncTailFinish_spyCalled (rS : Option SchemaVal) (o : Options) (pa : List JSVal)
    (ret : JSVal) (tr : List Ev) (a : List JSVal) (r : JSVal) (n : Nat)
    (hnotin : Ev.spyCalled a r n ∉ tr)
    (hmem : Ev.spyCalled a r n ∈ (syncTailFinish rS o pa ret tr).2.2) :
    returnValidation ret rS false = .ok r ∧ a = pa ∧ n = o.spyFnCount + 1 ∧
    (syncTailFinish rS o pa ret tr).2.2 =
      tr ++ [Ev.retValidated r, Ev.spyCalled a r n] := by
  unfold syncTailFinish at hmem ⊢
  cases hrv : returnValidation ret rS false with
  | error e =>
    rw [hrv] at hmem
    simp at hmem
    exact absurd hmem hnotin
  | ok r2 =>
    rw [hrv] at hmem
    dsimp only at hmem ⊢
    cases hspy : o.spyFn pa r2 (o.spyFnCount + 1) with
    | thrown e =>
      rw [hspy] at hmem
      rcases List.mem_append.mp hmem with hc | hc
      · exact absurd hc hnotin
      · simp at hc
        obtain ⟨ha, hr, hn⟩ := hc
        refine ⟨by rw [hr], ha, hn, ?_⟩
        rw [ha, hr, hn]
    | promise ps =>
      rw [hspy] at hmem
      cases ps with
      | ok w =>
        rcases List.mem_append.mp hmem with hc | hc
        · exact absurd hc hnotin
        · simp at hc
          obtain ⟨ha, hr, hn⟩ := hc
          refine ⟨by rw [hr], ha, hn, ?_⟩
          rw [ha, hr, hn]
      | error e =>
        rcases List.mem_append.mp hmem with hc | hc
        · exact absurd hc hnotin
        · simp at hc
          obtain ⟨ha, hr, hn⟩ := hc
          refine ⟨by rw [hr], ha, hn, ?_⟩
          rw [ha, hr, hn]
    | value w =>
      rw [hspy] at hmem
      rcases List.mem_append.mp hmem with hc | hc
      · exact absurd hc hnotin
      · simp at hc
        obtain ⟨ha, hr, hn⟩ := hc
        refine ⟨by rw [hr], ha, hn, ?_⟩
        rw [ha, hr, hn]

theorem asyncFinish_spyCalled (rS : Option SchemaVal) (o : Options) (pa : List JSVal)
    (ret : JSVal) (tr : List Ev) (a : List JSVal) (r : JSVal) (n : Nat)
    (hnotin : Ev.spyCalled a r n ∉ tr)
    (hmem : Ev.spyCalled a r n ∈ (asyncFinish rS o pa ret tr).trace) :
    returnValidation ret rS true = .ok r ∧ a = pa ∧ n = o.spyFnCount + 1 ∧
    (asyncFinish rS o pa ret tr).trace =
      tr ++ [Ev.retValidated r, Ev.spyCalled a r n] := by
  unfold asyncFinish at hmem ⊢
  cases hrv : returnValidation ret rS true with
  | error e =>
    rw [hrv] at hmem
    simp at hmem
    exact absurd hmem hnotin
  | ok r2 =>
    rw [hrv] at hmem
    dsimp only at hmem ⊢
    cases hspy : o.spyFn pa r2 (o.spyFnCount + 1) with
    | thrown e =>
      rw [hspy] at hmem
      rcases List.mem_append.mp hmem with hc | hc
      · exact absurd hc hnotin
      · simp at hc
        obtain ⟨ha, hr, hn⟩ := hc
        refine ⟨by rw [hr], ha, hn, ?_⟩
        rw [ha, hr, hn]
    | promise ps =>
      rw [hspy] at hmem
      cases ps with
      | ok w =>
        rcases List.mem_append.mp hmem with hc | hc
        · exact absurd hc hnotin
        · simp at hc
          obtain ⟨ha, hr, hn⟩ := hc
          refine ⟨by rw [hr], ha, hn, ?_⟩
          rw [ha, hr, hn]
      | error e =>
        rcases List.mem_append.mp hmem with hc | hc
        · exact absurd hc hnotin
        · simp at hc
          obtain ⟨ha, hr, hn⟩ := hc
          refine ⟨by rw [hr], ha, hn, ?_⟩
          rw [ha, hr, hn]
    | value w =>
      rw [hspy] at hmem
      rcases List.mem_append.mp hmem with hc | hc
      · exact absurd hc hnotin
      · simp at hc
        obtain ⟨ha, hr, hn⟩ := hc
        refine ⟨by rw [hr], ha, hn, ?_⟩
        rw [ha, hr, hn]

theorem syncCall_spy_decomp (aS : List SchemaVal) (rS : Option SchemaVal)
    (opts : Options) (vs : List JSVal) (a : List JSVal) (r : JSVal) (n : Nat)
    (hmem : Ev.spyCalled a r n ∈ (syncCall aS rS opts vs).trace) :
    (∃ r0, returnValidation r0 rS false = .ok r) ∧
    ∃ t1 t2, (syncCall aS rS opts vs).trace =
        t1 ++ Ev.retValidated r :: Ev.spyCalled a r n :: t2 ∧
      (∀ e xs, Ev.onErrCalled e xs ∉ Ev.retValidated r :: Ev.spyCalled a r n :: t2) := by
  unfold syncCall at hmem ⊢
  cases hv : validateArgs aS false 0 vs with
  | error e =>
    rw [hv] at hmem
    simp at hmem
  | ok pa =>
    rw [hv] at hmem
    dsimp only at hmem ⊢
    cases hex : opts.execFn pa with
    | value ret =>
      rw [hex] at hmem
      dsimp only at hmem ⊢
      obtain ⟨hrv, ha, hn, t2, htr, ht2⟩ := syncFinish_spyCalled rS opts pa ret
        [.implCalled pa] a r n (by simp) hmem
      refine ⟨⟨ret, hrv⟩, [.implCalled pa], t2, htr, ?_⟩
      rcases ht2 with rfl | rfl <;> simp
    | promise p =>
      rw [hex] at hmem
      dsimp only at hmem ⊢
      rcases List.mem_cons.mp hmem with hc | hc
      · cases hc
      · cases p with
        | ok ret =>
          dsimp only [syncAsyncTail] at hc ⊢
          obtain ⟨hrv, ha, hn, htr⟩ := syncTailFinish_spyCalled rS opts pa ret
            [] a r n (by simp) hc
          refine ⟨⟨ret, hrv⟩, [.implCalled pa], [], ?_, by simp⟩
          rw [htr]
          simp
        | error err =>
          dsimp only [syncAsyncTail] at hc ⊢
          cases hoe : opts.onErrorFn err pa with
          | thrown e2 =>
            rw [hoe] at hc
            simp at hc
          | value ret =>
            rw [hoe] at hc
            dsimp only at hc ⊢
            obtain ⟨hrv, ha, hn, htr⟩ := syncTailFinish_spyCalled rS opts pa ret
              [.implFailed err, .onErrCalled err pa] a r n (by simp) hc
            refine ⟨⟨ret, hrv⟩,
              .implCalled pa :: [.implFailed err, .onErrCalled err pa], [], ?_, by simp⟩
            rw [htr]
            simp
          | promise p2 =>
            rw [hoe] at hc
            dsimp only at hc ⊢
            cases p2 with
            | ok ret =>
              dsimp only at hc ⊢
              obtain ⟨hrv, ha, hn, htr⟩ := syncTailFinish_spyCalled rS opts pa ret
                [.implFailed err, .onErrCalled err pa] a r n (by simp) hc
              refine ⟨⟨ret, hrv⟩,
                .implCalled pa :: [.implFailed err, .onErrCalled err pa], [], ?_, by simp⟩
              rw [htr]
              simp
            | error e2 =>
              simp at hc
    | thrown err =>
      rw [hex] at hmem
      dsimp only at hmem ⊢
      cases hoe : opts.onErrorFn err pa with
      | thrown e2 =>
        rw [hoe] at hmem
        simp at hmem
      | promise p2 =>
        rw [hoe] at hmem
        simp at hmem
      | value ret =>
        rw [hoe] at hmem
        dsimp only at hmem ⊢
        obtain ⟨hrv, ha, hn, t2, htr, ht2⟩ := syncFinish_spyCalled rS opts pa ret
          [.implCalled pa, .implFailed err, .onErrCalled err pa] a r n (by simp) hmem
        refine ⟨⟨ret, hrv⟩, [.implCalled pa, .implFailed err, .onErrCalled err pa],
          t2, htr, ?_⟩
        rcases ht2 with rfl | rfl <;> simp

theorem asyncCall_spy_decomp (aS : List SchemaVal) (rS : Option SchemaVal)
    (opts : Options) (vs : List JSVal) (a : List JSVal) (r : JSVal) (n : Nat)
    (hmem : Ev.spyCalled a r n ∈ (asyncCall aS rS opts vs).trace) :
    (∃ r0, returnValidation r0 rS true = .ok r) ∧
    ∃ t1 t2, (asyncCall aS rS opts vs).trace =
        t1 ++ Ev.retValidated r :: Ev.spyCalled a r n :: t2 ∧
      (∀ e xs, Ev.onErrCalled e xs ∉ Ev.retValidated r :: Ev.spyCalled a r n :: t2) := by
  unfold asyncCall at hmem ⊢
  cases hv : validateArgs aS true 0 vs with
  | error e =>
    rw [hv] at hmem
    simp at hmem
  | ok pa =>
    rw [hv] at hmem
    dsimp only at hmem ⊢
    cases hex : opts.execFn pa with
    | value w =>
      rw [hex] at hmem
      dsimp only at hmem ⊢
      obtain ⟨hrv, ha, hn, htr⟩ := asyncFinish_spyCalled rS opts pa w
        [.implCalled pa] a r n (by simp) hmem
      refine ⟨⟨w, hrv⟩, [.implCalled pa], [], ?_, by simp⟩
      rw [htr]
    | promise p =>
      rw [hex] at hmem
      dsimp only at hmem ⊢
      cases p with
      | ok ret =>
        dsimp only at hmem ⊢
        obtain ⟨hrv, ha, hn, htr⟩ := asyncFinish_spyCalled rS opts pa ret
          [.implCalled pa] a r n (by simp) hmem
        refine ⟨⟨ret, hrv⟩, [.implCalled pa], [], ?_, by simp⟩
        rw [htr]
      | error err =>
        dsimp only at hmem ⊢
        cases hoe : opts.onErrorFn err pa with
        | thrown e2 =>
          rw [hoe] at hmem
          simp at hmem
        | value ret =>
          rw [hoe] at hmem
          dsimp only at hmem ⊢
          obtain ⟨hrv, ha, hn, htr⟩ := asyncFinish_spyCalled rS opts pa ret
            [.implCalled pa, .implFailed err, .onErrCalled err pa] a r n (by simp) hmem
          refine ⟨⟨ret, hrv⟩, [.implCalled pa, .implFailed err, .onErrCalled err pa],
            [], ?_, by simp⟩
          rw [htr]
        | promise p2 =>
          rw [hoe] at hmem
          dsimp only at hmem ⊢
          cases p2 with
          | ok ret =>
            dsimp only at hmem ⊢
            obtain ⟨hrv, ha, hn, htr⟩ := asyncFinish_spyCalled rS opts pa ret
              [.implCalled pa, .implFailed err, .onErrCalled err pa] a r n (by simp) hmem
            refine ⟨⟨ret, hrv⟩, [.implCalled pa, .implFailed err, .onErrCalled err pa],
              [], ?_, by simp⟩
            rw [htr]
          | error e2 =>
            simp at hmem
    | thrown err =>
      rw [hex] at hmem
      dsimp only at hmem ⊢
      cases hoe : opts.onErrorFn err pa with
      | thrown e2 =>
        rw [hoe] at hmem
        simp at hmem
      | value ret =>
        rw [hoe] at hmem
        dsimp only at hmem ⊢
        obtain ⟨hrv, ha, hn, htr⟩ := asyncFinish_spyCalled rS opts pa ret
          [.implCalled pa, .implFailed err, .onErrCalled err pa] a r n (by simp) hmem
        refine ⟨⟨ret, hrv⟩, [.implCalled pa, .implFailed err, .onErrCalled err pa],
          [], ?_, by simp⟩
        rw [htr]
      | promise p2 =>
        rw [hoe] at hmem
        dsimp only at hmem ⊢
        cases p2 with
        | ok ret =>
          dsimp only at hmem ⊢
          obtain ⟨hrv, ha, hn, htr⟩ := asyncFinish_spyCalled rS opts pa ret
            [.implCalled pa, .implFailed err, .onErrCalled err pa] a r n (by simp) hmem
          refine ⟨⟨ret, hrv⟩, [.implCalled pa, .implFailed err, .onErrCalled err pa],
            [], ?_, by simp⟩
          rw [htr]
        | error e2 =>
          simp at hmem

/--
C3: in every invocation of any pipeline branch (purely synchronous,
synchronous materialization with an asynchronous implementation, and
createAsync), whenever the spy is invoked, the event immediately preceding
it is the return validation producing exactly the value the spy receives
as its second argument (so validation runs strictly before the spy and the
spy only ever sees a validated value), and no error-handler invocation
occurs at or after the validation event (so validation runs strictly after
any recovery). -/
theorem c3_retval_between_recovery_and_spy :
    (∀ (aS : List SchemaVal) (rS : Option SchemaVal) (opts : Options)
        (vs : List JSVal) (a : List JSVal) (r : JSVal) (n : Nat),
      Ev.spyCalled a r n ∈ (syncCall aS rS opts vs).trace →
      (∃ r0, returnValidation r0 rS false = .ok r) ∧
      ∃ t1 t2, (syncCall aS rS opts vs).trace =
          t1 ++ Ev.retValidated r :: Ev.spyCalled a r n :: t2 ∧
        (∀ e xs, Ev.onErrCalled e xs ∉ Ev.retValidated r :: Ev.spyCalled a r n :: t2)) ∧
    (∀ (aS : List SchemaVal) (rS : Option SchemaVal) (opts : Options)
        (vs : List JSVal) (a : List JSVal) (r : JSVal) (n : Nat),
      Ev.spyCalled a r n ∈ (asyncCall aS rS opts vs).trace →
      (∃ r0, returnValidation r0 rS true = .ok r) ∧
      ∃ t1 t2, (asyncCall aS rS opts vs).trace =
          t1 ++ Ev.retValidated r :: Ev.spyCalled a r n :: t2 ∧
        (∀ e xs, Ev.onErrCalled e xs ∉ Ev.retValidated r :: Ev.spyCalled a r n :: t2)) :=
  ⟨syncCall_spy_decomp, asyncCall_spy_decomp⟩

/-- Witness for C3 at a concrete successful synchronous invocation. -/
theorem c3_retval_between_recovery_and_spy_witness :
    (∃ r0, returnValidation r0 none false = .ok (.num 7)) ∧
    ∃ t1 t2, (syncCall [] none (initOptions implHead) [.num 7]).trace =
        t1 ++ Ev.retValidated (.num 7) :: Ev.spyCalled [.num 7] (.num 7) 1 :: t2 ∧
      (∀ e xs, Ev.onErrCalled e xs ∉
        Ev.retValidated (.num 7) :: Ev.spyCalled [.num 7] (.num 7) 1 :: t2) :=
  c3_retval_between_recovery_and_spy.1 [] none (initOptions implHead) [.num 7]
    [.num 7] (.num 7) 1 (by decide)

end ZodFn
